import Mathlib

/-!
Verification development for the color_sentence repository.

The Python sources are shallowly embedded:
* Python `str` values become `List Char`;
* Python `int` becomes `ℤ` (or `ℕ` for counts), Python `float` becomes `ℚ`
  (the float computations of the program stay far from any representability
  edge, every decision in the program is robust under the float/rational gap);
* Python's built-in `round` (round-half-to-even, returning an `int`) becomes
  `py_round : ℚ → ℤ`;
* fallible operations return `Option`.

The network name resolver and the TTS subsystem are external collaborators:
they never influence the `rgb`/`hex` fields of a result, and the modelled
name field is the deterministic local-heuristic fallback path.
-/

/-- Python's built-in `round` on a real value: round half to even, to an
integer (model of `round(x)` / `int(round(x))` on a `float`). -/
def py_round (q : ℚ) : ℤ :=
  if q - ⌊q⌋ < 1/2 then ⌊q⌋
  else if 1/2 < q - ⌊q⌋ then ⌊q⌋ + 1
  else if ⌊q⌋ % 2 = 0 then ⌊q⌋ else ⌊q⌋ + 1

/-- `clamp_byte` from color_math.py: clamp an integer to [0, 255]. -/
def clamp_byte (v : ℤ) : ℤ :=
  if v < 0 then 0 else if 255 < v then 255 else v

/-- Python `ord(ch.lower())` for the ASCII range: lowercase A-Z, everything
else untouched (the program only ever compares ASCII letters). -/
def ascii_lower_nat (c : Char) : ℕ :=
  if 65 ≤ c.toNat ∧ c.toNat ≤ 90 then c.toNat + 32 else c.toNat

/-- The regex class `[A-Za-z]` from normalization.py. -/
def is_ascii_letter (c : Char) : Bool :=
  (65 ≤ c.toNat ∧ c.toNat ≤ 90) ∨ (97 ≤ c.toNat ∧ c.toNat ≤ 122)

/-- Python `str.isspace` (the Unicode whitespace set used by `rstrip` too). -/
def py_is_space (c : Char) : Bool :=
  (9 ≤ c.toNat ∧ c.toNat ≤ 13) ∨ c.toNat = 32 ∨ (28 ≤ c.toNat ∧ c.toNat ≤ 31) ∨
  c.toNat = 133 ∨ c.toNat = 160 ∨ c.toNat = 5760 ∨
  (8192 ≤ c.toNat ∧ c.toNat ≤ 8202) ∨ c.toNat = 8232 ∨ c.toNat = 8233 ∨
  c.toNat = 8239 ∨ c.toNat = 8287 ∨ c.toNat = 12288

/-- Python regex `\w` (word character), modelled on the ASCII range: the
program only ever matches ASCII stems and suffixes. -/
def is_word_char (c : Char) : Bool :=
  is_ascii_letter c ∨ (48 ≤ c.toNat ∧ c.toNat ≤ 57) ∨ c.toNat = 95

/-- The per-character replacement dict of `transliterate_de` in
normalization.py (`mapping.get(ch, ch)` written as an if-chain). -/
def trans_map (c : Char) : List Char :=
  if c = 'ä' then ['a', 'e']
  else if c = 'ö' then ['o', 'e']
  else if c = 'ü' then ['u', 'e']
  else if c = 'Ä' then ['A', 'e']
  else if c = 'Ö' then ['O', 'e']
  else if c = 'Ü' then ['U', 'e']
  else if c = 'ß' then ['s', 's']
  else [c]

/-- `transliterate_de` from normalization.py: per-character replacement,
results joined. -/
def transliterate_de (t : List Char) : List Char :=
  (t.map trans_map).flatten

/-- `visible_len` from normalization.py: count of non-whitespace characters. -/
def visible_len (t : List Char) : ℕ :=
  (t.filter (fun c => !(py_is_space c))).length

/-- `letters_only` from normalization.py: the ASCII letters of the text in
order (`re.findall` with class `[A-Za-z]`). -/
def letters_only (t : List Char) : List Char :=
  t.filter is_ascii_letter

/-- An RGB triple (channels are Python ints). -/
abbrev RGB := ℤ × ℤ × ℤ

/-- Uppercase hexadecimal digit characters, as indexed by `%X` formatting. -/
def hex_digit_char (n : ℕ) : Char :=
  ['0', '1', '2', '3', '4', '5', '6', '7', '8', '9',
   'A', 'B', 'C', 'D', 'E', 'F'].getD n '0'

/-- Python `f"{v:02X}"` for a channel value in [0, 255] (two zero-padded
uppercase hex digits; every caller passes a clamped channel). -/
def byte_to_hex (v : ℤ) : List Char :=
  [hex_digit_char (v.toNat / 16 % 16), hex_digit_char (v.toNat % 16)]

/-- `rgb_to_hex` from color_math.py. -/
def rgb_to_hex (red green blue : ℤ) : List Char :=
  '#' :: (byte_to_hex red ++ byte_to_hex green ++ byte_to_hex blue)

/-- `apply_saturation` from color_math.py: move each channel away from or
toward the channel mean, round, clamp. -/
def apply_saturation (rgb : RGB) (saturation_multiplier : ℚ) : RGB :=
  let mean_value : ℚ := ((rgb.1 : ℚ) + (rgb.2.1 : ℚ) + (rgb.2.2 : ℚ)) / 3
  let adjust : ℤ → ℤ := fun channel =>
    clamp_byte (py_round (mean_value + ((channel : ℚ) - mean_value) * saturation_multiplier))
  (adjust rgb.1, adjust rgb.2.1, adjust rgb.2.2)

/-- `apply_brightness` from color_math.py: scale each channel, round, clamp. -/
def apply_brightness (rgb : RGB) (brightness_multiplier : ℚ) : RGB :=
  let adjust : ℤ → ℤ := fun channel =>
    clamp_byte (py_round ((channel : ℚ) * brightness_multiplier))
  (adjust rgb.1, adjust rgb.2.1, adjust rgb.2.2)

/-- `_luminance_255` from engine.py: sRGB-weighted luminance on 0..255. -/
def luminance_255 (rgb : RGB) : ℚ :=
  0.2126 * (rgb.1 : ℚ) + 0.7152 * (rgb.2.1 : ℚ) + 0.0722 * (rgb.2.2 : ℚ)

/-- All three channels are bytes. -/
def in_byte_range (rgb : RGB) : Prop :=
  0 ≤ rgb.1 ∧ rgb.1 ≤ 255 ∧ 0 ≤ rgb.2.1 ∧ rgb.2.1 ≤ 255 ∧
  0 ≤ rgb.2.2 ∧ rgb.2.2 ≤ 255

instance in_byte_range_dec (rgb : RGB) : Decidable (in_byte_range rgb) := by
  unfold in_byte_range
  infer_instance

/-- A hue band from color_naming_config.py: inclusive start and exclusive end
in degrees, with a coarse name. -/
structure HueBand where
  start_inclusive : ℚ
  end_exclusive : ℚ
  name : List Char

/-- `HUE_BANDS` from color_naming_config.py. -/
def HUE_BANDS : List HueBand :=
  [⟨0, 12, ['r', 'e', 'd']⟩,
   ⟨12, 35, ['o', 'r', 'a', 'n', 'g', 'e']⟩,
   ⟨35, 55, ['y', 'e', 'l', 'l', 'o', 'w']⟩,
   ⟨55, 85, ['l', 'i', 'm', 'e']⟩,
   ⟨85, 165, ['g', 'r', 'e', 'e', 'n']⟩,
   ⟨165, 200, ['c', 'y', 'a', 'n']⟩,
   ⟨200, 250, ['b', 'l', 'u', 'e']⟩,
   ⟨250, 285, ['i', 'n', 'd', 'i', 'g', 'o']⟩,
   ⟨285, 320, ['p', 'u', 'r', 'p', 'l', 'e']⟩,
   ⟨320, 350, ['m', 'a', 'g', 'e', 'n', 't', 'a']⟩]

/-- `DEFAULT_HUE_NAME` from color_naming_config.py. -/
def DEFAULT_HUE_NAME : List Char := ['p', 'i', 'n', 'k', 'i', 's', 'h']

/-- Python `colorsys.rgb_to_hsv` on [0,1]-scaled channels, returning
(hue fraction, saturation, value).  Faithful to the stdlib source. -/
def rgb_to_hsv (r g b : ℚ) : ℚ × ℚ × ℚ :=
  let maxc : ℚ := max r (max g b)
  let minc : ℚ := min r (min g b)
  let v : ℚ := maxc
  if minc = maxc then (0, 0, v)
  else
    let s : ℚ := (maxc - minc) / maxc
    let rc : ℚ := (maxc - r) / (maxc - minc)
    let gc : ℚ := (maxc - g) / (maxc - minc)
    let bc : ℚ := (maxc - b) / (maxc - minc)
    let h : ℚ := if r = maxc then bc - gc
      else if g = maxc then 2 + rc - bc
      else 4 + gc - rc
    (Int.fract (h / 6), s, v)

/-- The for-loop over `HUE_BANDS` in `approx_color_name`: first band whose
half-open range contains the hue wins, otherwise the guarded default. -/
def hue_band_lookup (hue_degrees : ℚ) : List HueBand → List Char
  | [] => DEFAULT_HUE_NAME
  | band :: rest =>
    if band.start_inclusive ≤ hue_degrees ∧ hue_degrees < band.end_exclusive then
      band.name
    else hue_band_lookup hue_degrees rest

/-- `approx_color_name` from color_math.py: coarse color name via HSV
thresholds, falling through to the hue band table. -/
def approx_color_name (red green blue : ℤ) : List Char :=
  let hsv : ℚ × ℚ × ℚ := rgb_to_hsv ((red : ℚ) / 255) ((green : ℚ) / 255) ((blue : ℚ) / 255)
  let hue_degrees : ℚ := hsv.1 * 360
  let saturation : ℚ := hsv.2.1
  let value : ℚ := hsv.2.2
  if value < 0.12 then ['b', 'l', 'a', 'c', 'k']
  else if value > 0.92 ∧ saturation < 0.15 then ['w', 'h', 'i', 't', 'e']
  else if saturation < 0.12 then ['g', 'r', 'a', 'y']
  else hue_band_lookup hue_degrees HUE_BANDS

/-- The hue in degrees that `approx_color_name` looks up for an RGB input. -/
def hue_degrees_of (red green blue : ℤ) : ℚ :=
  (rgb_to_hsv ((red : ℚ) / 255) ((green : ℚ) / 255) ((blue : ℚ) / 255)).1 * 360

/-- `Denominator` from config/types.py. -/
inductive Denominator where
  | VISIBLE
  | LETTERS
  | RGB_HITS
deriving DecidableEq

/-- `ComputeMode` from config/types.py. -/
inductive ComputeMode where
  | FREQ
  | ANCHOR
deriving DecidableEq

/-- `ComputeConfig` from config/config.py.  The TTS-related fields
(`speak_enabled`, locale, backend, runner) are omitted: they never influence
the computed color, hex or name of the result. -/
structure ComputeConfig where
  denominator : Denominator := Denominator.VISIBLE
  punctuation_mods : Bool := true
  apply_length_floor : Bool := true
  mode : ComputeMode := ComputeMode.FREQ
deriving DecidableEq

/-- `LengthFloorConfig` values from config/config.py. -/
structure LengthFloorConfig where
  short_visible_max : ℤ
  long_visible_min : ℤ
  bright_at_short : ℤ
  bright_at_long : ℤ
  linear_step : ℤ

def LENGTH_FLOOR : LengthFloorConfig := ⟨6, 30, 200, 80, 5⟩

/-- `PunctuationConfig` values from config/config.py. -/
structure PunctuationConfig where
  weight_exclamation : ℤ
  weight_question : ℤ
  end_bonus : ℤ
  score_min : ℤ
  score_max : ℤ
  bright_per_score : ℚ
  sat_per_score : ℚ

def PUNCT : PunctuationConfig := ⟨2, -1, 1, -3, 3, 0.15, 0.10⟩

/-- `AnchorConfig` values from config/config.py. -/
structure AnchorConfig where
  index_r : ℤ
  index_g : ℤ
  index_b : ℤ

def ANCHOR : AnchorConfig := ⟨17, 6, 1⟩

/-- Case-insensitive character equality (Python `re.IGNORECASE` on the ASCII
stems and suffixes of the override patterns). -/
def ci_eq (a b : Char) : Bool :=
  ascii_lower_nat a = ascii_lower_nat b

/-- `pat` matches case-insensitively at the start of `t`. -/
def ci_matches_at : List Char → List Char → Bool
  | [], _ => true
  | _ :: _, [] => false
  | p :: ps, c :: cs => ci_eq p c && ci_matches_at ps cs

/-- The four optional suffixes of an override pattern, in the alternation
order of the compiled regex `(farben|farbig|stichig|lich)?`. -/
def OVERRIDE_SUFFIXES : List (List Char) :=
  [['f', 'a', 'r', 'b', 'e', 'n'],
   ['f', 'a', 'r', 'b', 'i', 'g'],
   ['s', 't', 'i', 'c', 'h', 'i', 'g'],
   ['l', 'i', 'c', 'h']]

/-- Greedy optional-suffix step of the pattern: the first alternative that
matches is taken (the regex never backtracks here because the following
`\w*` always succeeds).  Returns the canonical lowercase suffix key
(`[]` when no suffix matched, i.e. `BASE_WORD_SUFFIX_KEY`) and the rest. -/
def take_suffix (t : List Char) : List Char × List Char :=
  match OVERRIDE_SUFFIXES.find? (fun suf => ci_matches_at suf t) with
  | some suf => (suf, t.drop suf.length)
  | none => ([], t)

/-- One compiled pattern's `finditer` scan: at each position, a match needs a
word boundary (start of text or a preceding non-word character), the stem
case-insensitively, the greedy optional suffix, then the greedy `\w*` run;
scanning resumes after the match (matches of one pattern never overlap).
`fuel` is the remaining text length, which bounds the number of steps. -/
def scan_matches (stem : List Char) : ℕ → Bool → List Char → List (List Char)
  | 0, _, _ => []
  | _ + 1, _, [] => []
  | fuel + 1, boundary_ok, c :: rest =>
    if boundary_ok && ci_matches_at stem (c :: rest) then
      let after_stem := (c :: rest).drop stem.length
      let suffix_rest := take_suffix after_stem
      let after_run := suffix_rest.2.dropWhile is_word_char
      -- after a match the preceding character is always a word character,
      -- so the next position is never a word boundary
      suffix_rest.1 :: scan_matches stem fuel false after_run
    else
      scan_matches stem fuel (!(is_word_char c)) rest

/-- All matches (their canonical suffix keys) of one stem pattern in `t`,
leftmost first. -/
def finditer_stem (stem : List Char) (t : List Char) : List (List Char) :=
  scan_matches stem t.length true t

/-- `_compile_color_patterns` applied to `OVERRIDE_COLOR_STEMS`: one entry
per (color key, stem), in dict insertion order, with the target RGB of
`OVERRIDE_COLOR_RGB[color_key]` attached. -/
def override_patterns : List (String × RGB × List Char) :=
  [("rot", (255, 0, 0), ['r', 'o', 't']),
   ("rot", (255, 0, 0), ['r', 'o', 'e', 't']),
   ("gruen", (0, 255, 0), ['g', 'r', 'u', 'e', 'n']),
   ("blau", (0, 0, 255), ['b', 'l', 'a', 'u']),
   ("blau", (0, 0, 255), ['b', 'l', 'a', 'e', 'u']),
   ("gelb", (255, 255, 0), ['g', 'e', 'l', 'b']),
   ("braun", (150, 75, 0), ['b', 'r', 'a', 'u', 'n']),
   ("braun", (150, 75, 0), ['b', 'r', 'a', 'e', 'u', 'n']),
   ("orange", (255, 165, 0), ['o', 'r', 'a', 'n', 'g', 'e']),
   ("lila", (180, 0, 255), ['l', 'i', 'l', 'a']),
   ("violett", (148, 0, 211), ['v', 'i', 'o', 'l', 'e', 't', 't']),
   ("magenta", (255, 0, 255), ['m', 'a', 'g', 'e', 'n', 't', 'a']),
   ("pink", (255, 105, 180), ['p', 'i', 'n', 'k']),
   ("tuerkis", (64, 224, 208), ['t', 'u', 'e', 'r', 'k', 'i', 's']),
   ("cyan", (0, 255, 255), ['c', 'y', 'a', 'n']),
   ("grau", (128, 128, 128), ['g', 'r', 'a', 'u']),
   ("weiss", (255, 255, 255), ['w', 'e', 'i', 's', 's']),
   ("schwarz", (0, 0, 0), ['s', 'c', 'h', 'w', 'a', 'r', 'z']),
   ("gold", (212, 175, 55), ['g', 'o', 'l', 'd']),
   ("silber", (192, 192, 192), ['s', 'i', 'l', 'b', 'e', 'r']),
   ("silber", (192, 192, 192), ['s', 'i', 'l', 'b', 'e', 'r', 'n']),
   ("bronze", (205, 127, 50), ['b', 'r', 'o', 'n', 'z', 'e']),
   ("bronze", (205, 127, 50), ['b', 'r', 'o', 'n', 'z', 'e', 'n']),
   ("kupfer", (184, 115, 51), ['k', 'u', 'p', 'f', 'e', 'r']),
   ("messing", (181, 166, 66), ['m', 'e', 's', 's', 'i', 'n', 'g']),
   ("beige", (245, 245, 220), ['b', 'e', 'i', 'g', 'e']),
   ("oliv", (128, 128, 0), ['o', 'l', 'i', 'v']),
   ("mint", (170, 255, 195), ['m', 'i', 'n', 't']),
   ("khaki", (195, 176, 145), ['k', 'h', 'a', 'k', 'i'])]

/-- `OVERRIDE_SUFFIX_WEIGHTS` from overrides_config.py, keyed by the
canonical suffix (the empty suffix is the bare word). -/
def OVERRIDE_SUFFIX_WEIGHTS : List (List Char × ℚ) :=
  [([], 0.70),
   (['f', 'a', 'r', 'b', 'e', 'n'], 0.60),
   (['f', 'a', 'r', 'b', 'i', 'g'], 0.60),
   (['s', 't', 'i', 'c', 'h', 'i', 'g'], 0.50),
   (['l', 'i', 'c', 'h'], 0.35)]

/-- `OVERRIDE_SUFFIX_WEIGHTS.get(suffix, OVERRIDE_SUFFIX_WEIGHTS[""])`:
the bare-word weight is the fallback (the key `""` is present, so the
inner default 0 is never used). -/
def suffix_weight (suf : List Char) : ℚ :=
  ((OVERRIDE_SUFFIX_WEIGHTS.lookup suf).getD
    ((OVERRIDE_SUFFIX_WEIGHTS.lookup []).getD 0))

/-- All matches of all override patterns in `t`, as pairs of the target RGB
(`OVERRIDE_COLOR_RGB[color_key]`) and the canonical suffix key of the match,
in the scan order of `find_override_and_weight`. -/
def override_matches (t : List Char) : List (RGB × List Char) :=
  (override_patterns.map (fun p =>
    (finditer_stem p.2.2 t).map (fun suf => (p.2.1, suf)))).flatten

/-- `find_override_and_weight` from overrides.py: accumulate channel sums,
weight sum and match count over every pattern match, then return the
averaged RGB (rounded) and the averaged weight clamped to
[0, bare-word weight]; `none` when nothing matched. -/
def find_override_and_weight (t : List Char) : Option (RGB × ℚ) :=
  let acc : ℚ × ℚ × ℚ × ℚ × ℕ := (override_matches t).foldl
    (fun a m =>
      (a.1 + (m.1.1 : ℚ), a.2.1 + (m.1.2.1 : ℚ), a.2.2.1 + (m.1.2.2 : ℚ),
       a.2.2.2.1 + suffix_weight m.2, a.2.2.2.2 + 1))
    (0, 0, 0, 0, 0)
  if acc.2.2.2.2 = 0 then none
  else
    let n : ℚ := (acc.2.2.2.2 : ℕ)
    let avg_weight : ℚ := acc.2.2.2.1 / n
    let base_weight : ℚ := suffix_weight []
    let clamped_weight : ℚ :=
      if avg_weight < 0 then 0
      else if base_weight < avg_weight then base_weight
      else avg_weight
    some ((py_round (acc.1 / n), py_round (acc.2.1 / n), py_round (acc.2.2.1 / n)),
          clamped_weight)

/-- `_to_byte_0_1` from engine.py: clamp a proportion to [0, 1], scale to
[0, 255], round. -/
def to_byte_0_1 (value : ℚ) : ℤ :=
  let clamped : ℚ := if value < 0 then 0 else if 1 < value then 1 else value
  py_round (clamped * 255)

/-- `_length_floor_target` from engine.py.  The source wraps the linear
branch in `int(round(...))`, which is the identity on the int argument. -/
def length_floor_target (visible_count : ℤ) : ℤ :=
  if visible_count ≤ LENGTH_FLOOR.short_visible_max then LENGTH_FLOOR.bright_at_short
  else if LENGTH_FLOOR.long_visible_min ≤ visible_count then LENGTH_FLOOR.bright_at_long
  else LENGTH_FLOOR.bright_at_short -
    LENGTH_FLOOR.linear_step * (visible_count - LENGTH_FLOOR.short_visible_max)

/-- `_apply_length_floor` from engine.py. -/
def apply_length_floor (rgb : RGB) (base_count : ℤ) (cfg : ComputeConfig) : RGB :=
  if ¬(cfg.apply_length_floor = true) ∨ base_count ≤ 0 then rgb
  else
    let current_max : ℤ := max rgb.1 (max rgb.2.1 rgb.2.2)
    let target_max : ℤ := length_floor_target base_count
    if current_max ≤ 0 ∨ target_max ≤ current_max then rgb
    else
      let factor : ℚ := (target_max : ℚ) / (current_max : ℚ)
      (min 255 (py_round ((rgb.1 : ℚ) * factor)),
       min 255 (py_round ((rgb.2.1 : ℚ) * factor)),
       min 255 (py_round ((rgb.2.2 : ℚ) * factor)))

/-- The punctuation score computed inside `_punctuation_multipliers`:
weighted counts of exclamation and question marks, an end-of-sentence bonus
read off the rstripped tail, then clamping to [score_min, score_max]. -/
def punctuation_score (original_text : List Char) : ℤ :=
  let count_excl : ℤ := (original_text.count '!' : ℕ)
  let count_quest : ℤ := (original_text.count '?' : ℕ)
  let score : ℤ := PUNCT.weight_exclamation * count_excl + PUNCT.weight_question * count_quest
  -- `original_text.rstrip()` reversed; `endswith` looks at its first element
  let tail_rev : List Char := original_text.reverse.dropWhile py_is_space
  let score : ℤ := match tail_rev with
    | [] => score
    | c :: _ =>
      if c = '!' then score + PUNCT.end_bonus
      else if c = '?' then score - PUNCT.end_bonus
      else score
  if score < PUNCT.score_min then PUNCT.score_min
  else if PUNCT.score_max < score then PUNCT.score_max
  else score

/-- `_punctuation_multipliers` from engine.py: (brightness, saturation). -/
def punctuation_multipliers (original_text : List Char) : ℚ × ℚ :=
  let score := punctuation_score original_text
  (1 + PUNCT.bright_per_score * (score : ℚ), 1 + PUNCT.sat_per_score * (score : ℚ))

/-- `_compute_rgb_freq` from engine.py: r/g/b letter frequencies over the
configured denominator.  Returns (rgb, base_count). -/
def compute_rgb_freq (text_trans : List Char) (denominator : Denominator) : RGB × ℤ :=
  let letters : List Char := letters_only text_trans
  let base_count : ℤ :=
    match denominator with
    | Denominator.VISIBLE => (visible_len text_trans : ℕ)
    | Denominator.LETTERS => (letters.length : ℕ)
    | Denominator.RGB_HITS =>
      max 1 ((letters.countP
        (fun ch => ch = 'r' ∨ ch = 'R' ∨ ch = 'g' ∨ ch = 'G' ∨ ch = 'b' ∨ ch = 'B') : ℕ) : ℤ)
  let red_count : ℤ := (letters.countP (fun ch => ch = 'r' ∨ ch = 'R') : ℕ)
  let green_count : ℤ := (letters.countP (fun ch => ch = 'g' ∨ ch = 'G') : ℕ)
  let blue_count : ℤ := (letters.countP (fun ch => ch = 'b' ∨ ch = 'B') : ℕ)
  let red : ℤ := to_byte_0_1 (if 0 < base_count then (red_count : ℚ) / (base_count : ℚ) else 0)
  let green : ℤ := to_byte_0_1 (if 0 < base_count then (green_count : ℚ) / (base_count : ℚ) else 0)
  let blue : ℤ := to_byte_0_1 (if 0 < base_count then (blue_count : ℚ) / (base_count : ℚ) else 0)
  ((red, green, blue), base_count)

/-- `_letter_index` from engine.py, with Python's `str.lower()` modelled on
the mappings that can reach its range test.  `letter.lower()` lowercases A-Z
and U+212A (the Kelvin sign, which becomes 'k'); every other character
lowers to a single character outside 'a'..'z' (or to itself), leaving the
test's outcome unchanged — except U+0130 ('İ'), the one character whose
lowercase is the two-character string "i" + U+0307.  That string passes the
lexicographic test `"a" <= lower <= "z"`, and `ord(lower)` then raises
TypeError, which propagates out of `compute_color`.  The outer `none` is
that raised TypeError; `some none` is Python's `None` for non-letters;
`some (some i)` is the 0..25 index. -/
def letter_index (c : Char) : Option (Option ℤ) :=
  if c.toNat = 304 then none
  else
    let lower : ℕ :=
      if 65 ≤ c.toNat ∧ c.toNat ≤ 90 then c.toNat + 32
      else if c.toNat = 8490 then 107
      else c.toNat
    if 97 ≤ lower ∧ lower ≤ 122 then some (some ((lower : ℤ) - 97)) else some none

/-- `_nearest_anchor_keys` from engine.py: the anchors at minimal circular
distance, in the R, G, B order of the distances dict. -/
def nearest_anchor_keys (alpha_index : ℤ) : List Char :=
  let dist : ℤ → ℤ := fun idx =>
    let forward := (alpha_index - idx) % 26
    let backward := (idx - alpha_index) % 26
    if forward < backward then forward else backward
  let distances : List (Char × ℤ) :=
    [('R', dist ANCHOR.index_r), ('G', dist ANCHOR.index_g), ('B', dist ANCHOR.index_b)]
  let best : ℤ := min (dist ANCHOR.index_r) (min (dist ANCHOR.index_g) (dist ANCHOR.index_b))
  (distances.filter (fun p => p.2 = best)).map Prod.fst

/-- The loop body of `_compute_rgb_anchor` once `_letter_index` has returned
an index: each winning anchor gets an equal share of 1. -/
def anchor_step (counts : ℚ × ℚ × ℚ) (idx : ℤ) : ℚ × ℚ × ℚ :=
  let winners := nearest_anchor_keys idx
  let share : ℚ := 1 / (winners.length : ℚ)
  (counts.1 + (if 'R' ∈ winners then share else 0),
   counts.2.1 + (if 'G' ∈ winners then share else 0),
   counts.2.2 + (if 'B' ∈ winners then share else 0))

/-- The character loop of `_compute_rgb_anchor`: accumulate the anchor shares
over the text; a character on which `_letter_index` raises aborts the whole
loop (the TypeError propagates). -/
def anchor_sums_go (counts : ℚ × ℚ × ℚ) : List Char → Option (ℚ × ℚ × ℚ)
  | [] => some counts
  | c :: rest =>
    match letter_index c with
    | none => none
    | some none => anchor_sums_go counts rest
    | some (some idx) => anchor_sums_go (anchor_step counts idx) rest

/-- The (R, G, B) anchor sums accumulated over the whole text; `none` when
`_letter_index` raises on some character. -/
def anchor_sums (text_trans : List Char) : Option (ℚ × ℚ × ℚ) :=
  anchor_sums_go (0, 0, 0) text_trans

/-- `_compute_rgb_anchor` from engine.py: scale the anchor sums so the
largest maps to 255; all-zero sums give pure black; `none` when the
character loop raises. -/
def compute_rgb_anchor (text_trans : List Char) : Option RGB :=
  match anchor_sums text_trans with
  | none => none
  | some s =>
    let maximum : ℚ := max s.1 (max s.2.1 s.2.2)
    if maximum = 0 then some (0, 0, 0)
    else
      let scale : ℚ := 255 / maximum
      some (py_round (s.1 * scale), py_round (s.2.1 * scale), py_round (s.2.2 * scale))

/-- `_blend_override` from engine.py: weighted linear interpolation toward
the override target, per channel, rounded. -/
def blend_override (rgb : RGB) (text_trans : List Char) : RGB :=
  match find_override_and_weight text_trans with
  | none => rgb
  | some (override_rgb, weight) =>
    (py_round ((1 - weight) * (rgb.1 : ℚ) + weight * (override_rgb.1 : ℚ)),
     py_round ((1 - weight) * (rgb.2.1 : ℚ) + weight * (override_rgb.2.1 : ℚ)),
     py_round ((1 - weight) * (rgb.2.2 : ℚ) + weight * (override_rgb.2.2 : ℚ)))

/-- `_apply_punctuation` from engine.py: saturation then brightness, then the
two-sided monotone-luminance correction. -/
def apply_punctuation (rgb : RGB) (original_text : List Char) (cfg : ComputeConfig) : RGB :=
  if ¬(cfg.punctuation_mods = true) then rgb
  else
    let base_luminance : ℚ := luminance_255 rgb
    let multipliers := punctuation_multipliers original_text
    let brightness_multiplier := multipliers.1
    let saturation_multiplier := multipliers.2
    let after_sat : RGB := apply_saturation rgb saturation_multiplier
    let after_bright : RGB := apply_brightness after_sat brightness_multiplier
    let new_luminance : ℚ := luminance_255 after_bright
    if brightness_multiplier < 1 ∧ base_luminance < new_luminance ∧ 0 < new_luminance then
      apply_brightness after_bright (base_luminance / new_luminance)
    else if 1 < brightness_multiplier ∧ new_luminance < base_luminance ∧ 0 < new_luminance then
      apply_brightness after_bright (base_luminance / new_luminance)
    else after_bright

/-- `ComputeResult` from config/types.py. -/
structure ComputeResult where
  rgb : RGB
  hex : List Char
  name : List Char
deriving DecidableEq

/-- `_resolve_display_name`, restricted to its deterministic fallback path:
the remote Color.Pizza lookup is an external collaborator and never
influences the rgb/hex fields. -/
def resolve_display_name (rgb : RGB) : List Char :=
  approx_color_name rgb.1 rgb.2.1 rgb.2.2

/-- `compute_color` from engine.py: normalize, derive the base RGB, apply the
length floor (frequency mode), blend overrides, apply punctuation modifiers,
format hex and resolve a name.  The optional speech step has no effect on
the result.  `none` is the TypeError that anchor mode lets escape when
`_letter_index` is called on U+0130. -/
def compute_color (text : List Char) (cfg : ComputeConfig) : Option ComputeResult :=
  let original_text := text
  let text_trans := transliterate_de text
  let base_rgb_opt : Option RGB :=
    match cfg.mode with
    | ComputeMode.FREQ =>
      let freq_result := compute_rgb_freq text_trans cfg.denominator
      some (apply_length_floor freq_result.1 freq_result.2 cfg)
    | ComputeMode.ANCHOR => compute_rgb_anchor text_trans
  match base_rgb_opt with
  | none => none
  | some base_rgb =>
    let with_override : RGB := blend_override base_rgb text_trans
    let with_punct : RGB := apply_punctuation with_override original_text cfg
    let hex_code : List Char := rgb_to_hex with_punct.1 with_punct.2.1 with_punct.2.2
    some ⟨with_punct, hex_code, resolve_display_name with_punct⟩

/-- The numeric value of an uppercase hexadecimal digit character, `none` for
anything else (specification-side decoder for checking `rgb_to_hex`). -/
def hex_digit_val (c : Char) : Option ℕ :=
  if 48 ≤ c.toNat ∧ c.toNat ≤ 57 then some (c.toNat - 48)
  else if 65 ≤ c.toNat ∧ c.toNat ≤ 70 then some (c.toNat - 55)
  else none

/-- Specification-side decoder of an uppercase `#RRGGBB` string: succeeds
exactly on a `#` followed by six uppercase hex digits and returns the three
channel values. -/
def hex_decode (s : List Char) : Option RGB :=
  match s with
  | ['#', a, b, c, d, e, f] =>
    match hex_digit_val a, hex_digit_val b, hex_digit_val c,
          hex_digit_val d, hex_digit_val e, hex_digit_val f with
    | some va, some vb, some vc, some vd, some ve, some vf =>
      some (((va * 16 + vb : ℕ) : ℤ), ((vc * 16 + vd : ℕ) : ℤ), ((ve * 16 + vf : ℕ) : ℤ))
    | _, _, _, _, _, _ => none
  | _ => none

/-- The length-floor stage as claim C3 reads it: the target peak is derived
from the visible character count of the raw input rather than from the base
count of the denominator policy.  This definition follows the claim's words
and exists only to be compared against `compute_color`. -/
def apply_length_floor_claimC3 (rgb : RGB) (base_count : ℤ) (visible_count : ℤ)
    (cfg : ComputeConfig) : RGB :=
  if ¬(cfg.apply_length_floor = true) ∨ base_count ≤ 0 then rgb
  else
    let current_max : ℤ := max rgb.1 (max rgb.2.1 rgb.2.2)
    let target_max : ℤ := length_floor_target visible_count
    if current_max ≤ 0 ∨ target_max ≤ current_max then rgb
    else
      let factor : ℚ := (target_max : ℚ) / (current_max : ℚ)
      (min 255 (py_round ((rgb.1 : ℚ) * factor)),
       min 255 (py_round ((rgb.2.1 : ℚ) * factor)),
       min 255 (py_round ((rgb.2.2 : ℚ) * factor)))

/-- The full frequency-mode pipeline as claim C3 reads it: identical to
`compute_color` except that the length-floor stage targets the visible
character count of the raw input.  Follows the claim's words, for
comparison with `compute_color`. -/
def compute_rgb_claimC3 (text : List Char) (cfg : ComputeConfig) : Option RGB :=
  let text_trans := transliterate_de text
  let base_rgb_opt : Option RGB :=
    match cfg.mode with
    | ComputeMode.FREQ =>
      let freq_result := compute_rgb_freq text_trans cfg.denominator
      some (apply_length_floor_claimC3 freq_result.1 freq_result.2
        ((visible_len text : ℕ) : ℤ) cfg)
    | ComputeMode.ANCHOR => compute_rgb_anchor text_trans
  match base_rgb_opt with
  | none => none
  | some base_rgb =>
    let with_override : RGB := blend_override base_rgb text_trans
    some (apply_punctuation with_override text cfg)

/-- The seven characters replaced by `transliterate_de`. -/
def UMLAUT_KEYS : List Char := ['ä', 'ö', 'ü', 'Ä', 'Ö', 'Ü', 'ß']

theorem floor_le_py_round (q : ℚ) : ⌊q⌋ ≤ py_round q := by
  unfold py_round
  split_ifs <;> omega

theorem py_round_le_floor_add_one (q : ℚ) : py_round q ≤ ⌊q⌋ + 1 := by
  unfold py_round
  split_ifs <;> omega

theorem py_round_le (q : ℚ) : (py_round q : ℚ) ≤ q + 1/2 := by
  have hf := Int.floor_le q
  unfold py_round
  split_ifs with h1 h2 h3
  · linarith
  · push_cast
    linarith
  · linarith
  · push_cast
    linarith

theorem py_round_ge (q : ℚ) : q - 1/2 ≤ (py_round q : ℚ) := by
  have hf := Int.lt_floor_add_one q
  unfold py_round
  split_ifs with h1 h2 h3
  · linarith
  · push_cast
    linarith
  · linarith
  · push_cast
    linarith

theorem py_round_intCast (n : ℤ) : py_round (n : ℚ) = n := by
  unfold py_round
  simp [Int.floor_intCast]

theorem py_round_mono {a b : ℚ} (hab : a ≤ b) : py_round a ≤ py_round b := by
  rcases lt_or_eq_of_le (Int.floor_le_floor hab) with hlt | heq
  · calc py_round a ≤ ⌊a⌋ + 1 := py_round_le_floor_add_one a
      _ ≤ ⌊b⌋ := hlt
      _ ≤ py_round b := floor_le_py_round b
  · unfold py_round
    rw [heq]
    have hfrac : a - ⌊b⌋ ≤ b - ⌊b⌋ := by linarith
    split_ifs <;> first | omega | linarith

theorem py_round_le_int {q : ℚ} {n : ℤ} (h : q ≤ (n : ℚ)) : py_round q ≤ n := by
  have := py_round_mono h
  rwa [py_round_intCast] at this

theorem py_round_int_le {q : ℚ} {n : ℤ} (h : (n : ℚ) ≤ q) : n ≤ py_round q := by
  have := py_round_mono h
  rwa [py_round_intCast] at this

theorem py_round_nonneg {q : ℚ} (h : 0 ≤ q) : 0 ≤ py_round q :=
  py_round_int_le (n := 0) (by exact_mod_cast h)

theorem clamp_byte_nonneg (v : ℤ) : 0 ≤ clamp_byte v := by
  unfold clamp_byte
  split_ifs <;> omega

theorem clamp_byte_le_255 (v : ℤ) : clamp_byte v ≤ 255 := by
  unfold clamp_byte
  split_ifs <;> omega

theorem clamp_byte_of_mem {v : ℤ} (h0 : 0 ≤ v) (h1 : v ≤ 255) : clamp_byte v = v := by
  unfold clamp_byte
  split_ifs <;> omega

theorem clamp_byte_le_self {v : ℤ} (h0 : 0 ≤ v) : clamp_byte v ≤ v := by
  unfold clamp_byte
  split_ifs <;> omega

theorem le_clamp_byte {c v : ℤ} (hc0 : 0 ≤ c) (hc1 : c ≤ 255) (h : c ≤ v) :
    c ≤ clamp_byte v := by
  unfold clamp_byte
  split_ifs <;> omega

theorem apply_saturation_in_range (rgb : RGB) (m : ℚ) :
    in_byte_range (apply_saturation rgb m) :=
  ⟨clamp_byte_nonneg _, clamp_byte_le_255 _, clamp_byte_nonneg _,
   clamp_byte_le_255 _, clamp_byte_nonneg _, clamp_byte_le_255 _⟩

theorem apply_brightness_in_range (rgb : RGB) (m : ℚ) :
    in_byte_range (apply_brightness rgb m) :=
  ⟨clamp_byte_nonneg _, clamp_byte_le_255 _, clamp_byte_nonneg _,
   clamp_byte_le_255 _, clamp_byte_nonneg _, clamp_byte_le_255 _⟩

theorem to_byte_0_1_range (v : ℚ) : 0 ≤ to_byte_0_1 v ∧ to_byte_0_1 v ≤ 255 := by
  simp only [to_byte_0_1]
  constructor
  · apply py_round_int_le (n := 0)
    push_cast
    split_ifs <;> linarith
  · apply py_round_le_int (n := 255)
    push_cast
    split_ifs <;> linarith

theorem compute_rgb_freq_in_range (t : List Char) (d : Denominator) :
    in_byte_range (compute_rgb_freq t d).1 := by
  cases d <;>
    exact ⟨(to_byte_0_1_range _).1, (to_byte_0_1_range _).2, (to_byte_0_1_range _).1,
      (to_byte_0_1_range _).2, (to_byte_0_1_range _).1, (to_byte_0_1_range _).2⟩

theorem apply_length_floor_in_range {rgb : RGB} (h : in_byte_range rgb)
    (b : ℤ) (cfg : ComputeConfig) : in_byte_range (apply_length_floor rgb b cfg) := by
  obtain ⟨h1, h2, h3, h4, h5, h6⟩ := h
  simp only [apply_length_floor]
  split_ifs with hflag hcur
  · exact ⟨h1, h2, h3, h4, h5, h6⟩
  · exact ⟨h1, h2, h3, h4, h5, h6⟩
  · push_neg at hcur
    have hcur0 : (0 : ℚ) < (max rgb.1 (max rgb.2.1 rgb.2.2) : ℤ) := by
      exact_mod_cast hcur.1
    have htgt : (0 : ℚ) < (length_floor_target b : ℤ) := by
      have := hcur.2
      have := hcur.1
      exact_mod_cast (by omega : (0:ℤ) < length_floor_target b)
    have hfac : 0 ≤ ((length_floor_target b : ℤ) : ℚ) / ((max rgb.1 (max rgb.2.1 rgb.2.2) : ℤ) : ℚ) :=
      le_of_lt (div_pos htgt hcur0)
    refine ⟨?_, min_le_left _ _, ?_, min_le_left _ _, ?_, min_le_left _ _⟩ <;>
      exact le_min (by norm_num)
        (py_round_nonneg (mul_nonneg (by exact_mod_cast ‹(0:ℤ) ≤ _›) hfac))

theorem letter_index_some_bounds {c : Char} {i : ℤ}
    (h : letter_index c = some (some i)) : 0 ≤ i ∧ i ≤ 25 := by
  simp only [letter_index] at h
  split_ifs at h <;> simp_all <;> omega

theorem nak_share_facts {i : ℤ} (h0 : 0 ≤ i) (h1 : i ≤ 25) :
    (0 ≤ if 'R' ∈ nearest_anchor_keys i then (1:ℚ)/((nearest_anchor_keys i).length : ℚ) else 0) ∧
    (0 ≤ if 'G' ∈ nearest_anchor_keys i then (1:ℚ)/((nearest_anchor_keys i).length : ℚ) else 0) ∧
    (0 ≤ if 'B' ∈ nearest_anchor_keys i then (1:ℚ)/((nearest_anchor_keys i).length : ℚ) else 0) ∧
    ((if 'R' ∈ nearest_anchor_keys i then (1:ℚ)/((nearest_anchor_keys i).length : ℚ) else 0) +
     (if 'G' ∈ nearest_anchor_keys i then (1:ℚ)/((nearest_anchor_keys i).length : ℚ) else 0) +
     (if 'B' ∈ nearest_anchor_keys i then (1:ℚ)/((nearest_anchor_keys i).length : ℚ) else 0) = 1) := by
  interval_cases i <;>
    norm_num [nearest_anchor_keys, ANCHOR, List.filter] <;>
    norm_num [show ('R' : Char) ≠ 'B' from by decide, show ('G' : Char) ≠ 'B' from by decide,
      show ('R' : Char) ≠ 'G' from by decide, show ('B' : Char) ≠ 'G' from by decide,
      show ('G' : Char) ≠ 'R' from by decide, show ('B' : Char) ≠ 'R' from by decide]

theorem anchor_step_mono (s : ℚ × ℚ × ℚ) {i : ℤ} (h0 : 0 ≤ i) (h1 : i ≤ 25) :
    s.1 ≤ (anchor_step s i).1 ∧ s.2.1 ≤ (anchor_step s i).2.1 ∧
    s.2.2 ≤ (anchor_step s i).2.2 := by
  obtain ⟨hR, hG, hB, _⟩ := nak_share_facts h0 h1
  simp only [anchor_step]
  exact ⟨by linarith, by linarith, by linarith⟩

theorem anchor_sums_go_mono (t : List Char) : ∀ s r : ℚ × ℚ × ℚ,
    anchor_sums_go s t = some r →
    s.1 ≤ r.1 ∧ s.2.1 ≤ r.2.1 ∧ s.2.2 ≤ r.2.2 := by
  induction t with
  | nil =>
    intro s r h
    simp only [anchor_sums_go, Option.some.injEq] at h
    subst h
    exact ⟨le_refl _, le_refl _, le_refl _⟩
  | cons c cs ih =>
    intro s r h
    simp only [anchor_sums_go] at h
    cases hli : letter_index c with
    | none =>
      rw [hli] at h
      exact Option.noConfusion h
    | some o =>
      cases o with
      | none =>
        rw [hli] at h
        exact ih s r h
      | some i =>
        rw [hli] at h
        obtain ⟨b0, b1⟩ := letter_index_some_bounds hli
        obtain ⟨m1, m2, m3⟩ := anchor_step_mono s b0 b1
        obtain ⟨n1, n2, n3⟩ := ih _ r h
        exact ⟨le_trans m1 n1, le_trans m2 n2, le_trans m3 n3⟩

theorem anchor_sums_some_nonneg {t : List Char} {s : ℚ × ℚ × ℚ}
    (h : anchor_sums t = some s) :
    0 ≤ s.1 ∧ 0 ≤ s.2.1 ∧ 0 ≤ s.2.2 :=
  anchor_sums_go_mono t (0, 0, 0) s h

theorem compute_rgb_anchor_some_in_range {t : List Char} {rgb : RGB}
    (h : compute_rgb_anchor t = some rgb) : in_byte_range rgb := by
  cases hs : anchor_sums t with
  | none =>
    rw [compute_rgb_anchor, hs] at h
    exact Option.noConfusion h
  | some s =>
    obtain ⟨h1, h2, h3⟩ := anchor_sums_some_nonneg hs
    simp only [compute_rgb_anchor, hs] at h
    split_ifs at h with hmax
    · rw [Option.some.injEq] at h
      subst h
      exact ⟨le_refl 0, by norm_num, le_refl 0, by norm_num, le_refl 0, by norm_num⟩
    · rw [Option.some.injEq] at h
      subst h
      have hle1 : s.1 ≤ max s.1 (max s.2.1 s.2.2) := le_max_left _ _
      have hle2 : s.2.1 ≤ max s.1 (max s.2.1 s.2.2) :=
        le_trans (le_max_left _ _) (le_max_right _ _)
      have hle3 : s.2.2 ≤ max s.1 (max s.2.1 s.2.2) :=
        le_trans (le_max_right _ _) (le_max_right _ _)
      have hpos : 0 < max s.1 (max s.2.1 s.2.2) :=
        lt_of_le_of_ne (le_trans h1 hle1) (Ne.symm hmax)
      have hbound : ∀ x : ℚ, 0 ≤ x → x ≤ max s.1 (max s.2.1 s.2.2) →
          0 ≤ py_round (x * (255 / max s.1 (max s.2.1 s.2.2))) ∧
          py_round (x * (255 / max s.1 (max s.2.1 s.2.2))) ≤ 255 := by
        intro x hx0 hxle
        constructor
        · exact py_round_nonneg (mul_nonneg hx0 (le_of_lt (div_pos (by norm_num) hpos)))
        · apply py_round_le_int (n := 255)
          push_cast
          rw [mul_div_assoc']
          rw [div_le_iff₀ hpos]
          nlinarith
      exact ⟨(hbound _ h1 hle1).1, (hbound _ h1 hle1).2, (hbound _ h2 hle2).1,
        (hbound _ h2 hle2).2, (hbound _ h3 hle3).1, (hbound _ h3 hle3).2⟩

theorem override_foldl_eq (l : List (RGB × List Char)) :
    ∀ acc : ℚ × ℚ × ℚ × ℚ × ℕ,
    l.foldl (fun a m =>
      (a.1 + (m.1.1 : ℚ), a.2.1 + (m.1.2.1 : ℚ), a.2.2.1 + (m.1.2.2 : ℚ),
       a.2.2.2.1 + suffix_weight m.2, a.2.2.2.2 + 1)) acc =
    (acc.1 + (l.map (fun m => ((m.1.1 : ℤ) : ℚ))).sum,
     acc.2.1 + (l.map (fun m => ((m.1.2.1 : ℤ) : ℚ))).sum,
     acc.2.2.1 + (l.map (fun m => ((m.1.2.2 : ℤ) : ℚ))).sum,
     acc.2.2.2.1 + (l.map (fun m => suffix_weight m.2)).sum,
     acc.2.2.2.2 + l.length) := by
  induction l with
  | nil => intro acc; simp
  | cons m ms ih =>
    intro acc
    simp only [List.foldl_cons, List.map_cons, List.sum_cons, List.length_cons, ih]
    refine Prod.ext ?_ (Prod.ext ?_ (Prod.ext ?_ (Prod.ext ?_ ?_))) <;> simp <;> ring

theorem override_matches_rgb_range {t : List Char} {m : RGB × List Char}
    (hm : m ∈ override_matches t) : in_byte_range m.1 := by
  rw [override_matches, List.mem_flatten] at hm
  obtain ⟨l, hl, hml⟩ := hm
  rw [List.mem_map] at hl
  obtain ⟨p, hp, rfl⟩ := hl
  rw [List.mem_map] at hml
  obtain ⟨suf, _, rfl⟩ := hml
  have hall : ∀ p ∈ override_patterns, in_byte_range p.2.1 := by decide
  exact hall p hp

theorem override_avg_channel_range {t : List Char} (hne : override_matches t ≠ [])
    (f : RGB × List Char → ℤ) (hf : ∀ m ∈ override_matches t, 0 ≤ f m ∧ f m ≤ 255) :
    0 ≤ py_round (((override_matches t).map (fun m => ((f m : ℤ) : ℚ))).sum /
        ((override_matches t).length : ℚ)) ∧
    py_round (((override_matches t).map (fun m => ((f m : ℤ) : ℚ))).sum /
        ((override_matches t).length : ℚ)) ≤ 255 := by
  have hlenpos : 0 < ((override_matches t).length : ℚ) := by
    exact_mod_cast List.length_pos.mpr hne
  have h0 : 0 ≤ ((override_matches t).map (fun m => ((f m : ℤ) : ℚ))).sum :=
    List.sum_nonneg (by
      intro x hx
      rw [List.mem_map] at hx
      obtain ⟨m, hm, rfl⟩ := hx
      exact_mod_cast (hf m hm).1)
  have h1 : ((override_matches t).map (fun m => ((f m : ℤ) : ℚ))).sum ≤
      255 * ((override_matches t).length : ℚ) := by
    calc ((override_matches t).map (fun m => ((f m : ℤ) : ℚ))).sum
        ≤ ((override_matches t).map (fun m => ((f m : ℤ) : ℚ))).length • (255 : ℚ) :=
          List.sum_le_card_nsmul _ _ (by
            intro x hx
            rw [List.mem_map] at hx
            obtain ⟨m, hm, rfl⟩ := hx
            exact_mod_cast (hf m hm).2)
      _ = 255 * ((override_matches t).length : ℚ) := by
          rw [List.length_map, nsmul_eq_mul]; ring
  constructor
  · exact py_round_nonneg (div_nonneg h0 (le_of_lt hlenpos))
  · apply py_round_le_int (n := 255)
    push_cast
    rw [div_le_iff₀ hlenpos]
    linarith

theorem find_override_bounds {t : List Char} {rgbO : RGB} {w : ℚ}
    (h : find_override_and_weight t = some (rgbO, w)) :
    in_byte_range rgbO ∧ 0 ≤ w ∧ w ≤ 0.70 := by
  rw [find_override_and_weight] at h
  simp only [override_foldl_eq, zero_add] at h
  split_ifs at h with hn hw1 hw2
  all_goals (
    have hne : override_matches t ≠ [] := by
      intro he
      rw [he] at hn
      simp at hn)
  all_goals (
    rw [Option.some.injEq, Prod.mk.injEq] at h
    obtain ⟨hrgb, hwv⟩ := h
    have hr := override_avg_channel_range hne (fun m => m.1.1)
      (fun m hm => ⟨(override_matches_rgb_range hm).1, (override_matches_rgb_range hm).2.1⟩)
    have hg := override_avg_channel_range hne (fun m => m.1.2.1)
      (fun m hm => ⟨(override_matches_rgb_range hm).2.2.1, (override_matches_rgb_range hm).2.2.2.1⟩)
    have hb := override_avg_channel_range hne (fun m => m.1.2.2)
      (fun m hm => ⟨(override_matches_rgb_range hm).2.2.2.2.1, (override_matches_rgb_range hm).2.2.2.2.2⟩)
    refine ⟨?_, ?_⟩
    · rw [← hrgb] at *
      exact ⟨hr.1, hr.2, hg.1, hg.2, hb.1, hb.2⟩)
  · exact ⟨by rw [← hwv], by rw [← hwv]; norm_num⟩
  · have hsf : suffix_weight ([] : List Char) = 0.70 := rfl
    rw [hsf] at hwv
    exact ⟨by rw [← hwv]; norm_num, by rw [← hwv]⟩
  · push_neg at hw1 hw2
    have hsf : suffix_weight ([] : List Char) = 0.70 := rfl
    rw [hsf] at hw2
    exact ⟨by rw [← hwv]; exact hw1, by rw [← hwv]; exact hw2⟩
theorem blend_override_in_range {rgb : RGB} (h : in_byte_range rgb) (t : List Char) :
    in_byte_range (blend_override rgb t) := by
  rw [blend_override]
  cases hfo : find_override_and_weight t with
  | none => exact h
  | some pr =>
    obtain ⟨orgb, w⟩ := pr
    obtain ⟨ho, hw0, hw1⟩ := find_override_bounds hfo
    obtain ⟨a1, a2, a3, a4, a5, a6⟩ := h
    obtain ⟨b1, b2, b3, b4, b5, b6⟩ := ho
    have key : ∀ c o : ℤ, 0 ≤ c → c ≤ 255 → 0 ≤ o → o ≤ 255 →
        0 ≤ py_round ((1 - w) * (c : ℚ) + w * (o : ℚ)) ∧
        py_round ((1 - w) * (c : ℚ) + w * (o : ℚ)) ≤ 255 := by
      intro c o hc0 hc1 ho0 ho1
      have hc0' : (0:ℚ) ≤ c := by exact_mod_cast hc0
      have hc1' : (c:ℚ) ≤ 255 := by exact_mod_cast hc1
      have ho0' : (0:ℚ) ≤ o := by exact_mod_cast ho0
      have ho1' : (o:ℚ) ≤ 255 := by exact_mod_cast ho1
      have hw1' : w ≤ 1 := by linarith [hw1]
      constructor
      · exact py_round_nonneg (by nlinarith)
      · apply py_round_le_int (n := 255)
        push_cast
        nlinarith
    exact ⟨(key _ _ a1 a2 b1 b2).1, (key _ _ a1 a2 b1 b2).2,
      (key _ _ a3 a4 b3 b4).1, (key _ _ a3 a4 b3 b4).2,
      (key _ _ a5 a6 b5 b6).1, (key _ _ a5 a6 b5 b6).2⟩

theorem apply_punctuation_in_range {rgb : RGB} (h : in_byte_range rgb)
    (t : List Char) (cfg : ComputeConfig) :
    in_byte_range (apply_punctuation rgb t cfg) := by
  simp only [apply_punctuation]
  split_ifs <;> first
    | exact h
    | exact apply_brightness_in_range _ _

theorem compute_color_rgb_bytes (text : List Char) (cfg : ComputeConfig)
    (res : ComputeResult) (h : compute_color text cfg = some res) :
    in_byte_range res.rgb := by
  obtain ⟨d, p, f, m⟩ := cfg
  cases m with
  | FREQ =>
    simp only [compute_color] at h
    rw [Option.some.injEq] at h
    subst h
    exact apply_punctuation_in_range (blend_override_in_range
      (apply_length_floor_in_range (compute_rgb_freq_in_range _ _) _ _) _) _ _
  | ANCHOR =>
    cases hca : compute_rgb_anchor (transliterate_de text) with
    | none =>
      simp only [compute_color, hca] at h
      exact Option.noConfusion h
    | some base =>
      simp only [compute_color, hca] at h
      rw [Option.some.injEq] at h
      subst h
      exact apply_punctuation_in_range (blend_override_in_range
        (compute_rgb_anchor_some_in_range hca) _) _ _
theorem luminance_255_nonneg {rgb : RGB} (h : in_byte_range rgb) :
    0 ≤ luminance_255 rgb := by
  obtain ⟨h1, _, h3, _, h5, _⟩ := h
  have c1 : (0:ℚ) ≤ rgb.1 := by exact_mod_cast h1
  have c3 : (0:ℚ) ≤ rgb.2.1 := by exact_mod_cast h3
  have c5 : (0:ℚ) ≤ rgb.2.2 := by exact_mod_cast h5
  rw [luminance_255]
  nlinarith

theorem luminance_brightness_le {rgb : RGB} (h : in_byte_range rgb) {s : ℚ} (hs : 0 ≤ s) :
    luminance_255 (apply_brightness rgb s) ≤ s * luminance_255 rgb + 1/2 := by
  obtain ⟨h1, _, h3, _, h5, _⟩ := h
  have key : ∀ c : ℤ, 0 ≤ c →
      ((clamp_byte (py_round ((c : ℚ) * s)) : ℤ) : ℚ) ≤ (c : ℚ) * s + 1/2 := by
    intro c hc
    have hcs : (0:ℚ) ≤ (c : ℚ) * s := mul_nonneg (by exact_mod_cast hc) hs
    have hnn : 0 ≤ py_round ((c : ℚ) * s) := py_round_nonneg hcs
    have hclamp : clamp_byte (py_round ((c : ℚ) * s)) ≤ py_round ((c : ℚ) * s) :=
      clamp_byte_le_self hnn
    calc ((clamp_byte (py_round ((c : ℚ) * s)) : ℤ) : ℚ)
        ≤ ((py_round ((c : ℚ) * s) : ℤ) : ℚ) := by exact_mod_cast hclamp
      _ ≤ (c : ℚ) * s + 1/2 := py_round_le _
  have k1 := key rgb.1 h1
  have k3 := key rgb.2.1 h3
  have k5 := key rgb.2.2 h5
  simp only [apply_brightness, luminance_255]
  nlinarith

theorem apply_brightness_pointwise_ge {rgb : RGB} (h : in_byte_range rgb) {s : ℚ} (hs : 1 ≤ s) :
    rgb.1 ≤ (apply_brightness rgb s).1 ∧ rgb.2.1 ≤ (apply_brightness rgb s).2.1 ∧
    rgb.2.2 ≤ (apply_brightness rgb s).2.2 := by
  obtain ⟨h1, h2, h3, h4, h5, h6⟩ := h
  have key : ∀ c : ℤ, 0 ≤ c → c ≤ 255 → c ≤ clamp_byte (py_round ((c : ℚ) * s)) := by
    intro c hc0 hc1
    apply le_clamp_byte hc0 hc1
    have : ((c : ℤ) : ℚ) ≤ (c : ℚ) * s := by nlinarith [(by exact_mod_cast hc0 : (0:ℚ) ≤ (c:ℚ))]
    exact py_round_int_le this
  exact ⟨key _ h1 h2, key _ h3 h4, key _ h5 h6⟩

theorem luminance_255_mono {a b : RGB} (h1 : a.1 ≤ b.1) (h2 : a.2.1 ≤ b.2.1)
    (h3 : a.2.2 ≤ b.2.2) : luminance_255 a ≤ luminance_255 b := by
  have c1 : ((a.1 : ℤ) : ℚ) ≤ (b.1 : ℚ) := by exact_mod_cast h1
  have c2 : ((a.2.1 : ℤ) : ℚ) ≤ (b.2.1 : ℚ) := by exact_mod_cast h2
  have c3 : ((a.2.2 : ℤ) : ℚ) ≤ (b.2.2 : ℚ) := by exact_mod_cast h3
  simp only [luminance_255]
  nlinarith

/-- C1 (amended): with punctuation modulation enabled, a darken request
(brightness multiplier below 1) can raise the sRGB-weighted luminance by at
most the channel-rounding slack of 1/2; a brighten request (multiplier
above 1) never ends below the minimum of the pre-stage luminance and the
luminance of the modulated color before the two-sided correction (full
restoration of the pre-stage level is not guaranteed because of rounding
and the clamp at 255). -/
theorem apply_punctuation_luminance_direction {rgb : RGB} (h : in_byte_range rgb)
    (t : List Char) (cfg : ComputeConfig) (hp : cfg.punctuation_mods = true) :
    ((punctuation_multipliers t).1 < 1 →
      luminance_255 (apply_punctuation rgb t cfg) ≤ luminance_255 rgb + 1/2) ∧
    (1 < (punctuation_multipliers t).1 →
      min (luminance_255 rgb)
        (luminance_255 (apply_brightness (apply_saturation rgb (punctuation_multipliers t).2)
          (punctuation_multipliers t).1)) ≤
      luminance_255 (apply_punctuation rgb t cfg)) := by
  have hmid : in_byte_range
      (apply_brightness (apply_saturation rgb (punctuation_multipliers t).2)
        (punctuation_multipliers t).1) :=
    apply_brightness_in_range _ _
  have hbase0 : 0 ≤ luminance_255 rgb := luminance_255_nonneg h
  have hnew0 : 0 ≤ luminance_255
      (apply_brightness (apply_saturation rgb (punctuation_multipliers t).2)
        (punctuation_multipliers t).1) := luminance_255_nonneg hmid
  simp only [apply_punctuation, hp, not_true_eq_false, if_false]
  split_ifs with h1 h2
  · constructor
    · intro _
      have hs : 0 ≤ luminance_255 rgb / luminance_255
          (apply_brightness (apply_saturation rgb (punctuation_multipliers t).2)
            (punctuation_multipliers t).1) :=
        div_nonneg hbase0 (le_of_lt h1.2.2)
      have hle := luminance_brightness_le hmid hs
      rw [div_mul_cancel₀ _ (ne_of_gt h1.2.2)] at hle
      exact hle
    · intro hgt
      exact absurd h1.1 (by linarith)
  · constructor
    · intro hlt
      exact absurd h2.1 (by linarith)
    · intro _
      have hs : 1 ≤ luminance_255 rgb / luminance_255
          (apply_brightness (apply_saturation rgb (punctuation_multipliers t).2)
            (punctuation_multipliers t).1) :=
        (one_le_div h2.2.2).mpr (le_of_lt h2.2.1)
      obtain ⟨p1, p2, p3⟩ := apply_brightness_pointwise_ge hmid hs
      exact le_trans (min_le_right _ _) (luminance_255_mono p1 p2 p3)
  · constructor
    · intro hlt
      rcases not_and_or.mp h1 with hc | hc
      · exact absurd hlt hc
      · rcases not_and_or.mp hc with hc2 | hc2
        · push_neg at hc2
          linarith
        · push_neg at hc2
          linarith
    · intro _
      exact min_le_right _ _

set_option maxRecDepth 16000

/-- C1, counterexample to the claim as stated: on the input "? blau" the
punctuation score is -1, so the brightness multiplier 0.85 requests a
darkening; the color entering the punctuation stage is (0, 0, 238)
(luminance 17.1836), yet the stage returns (6, 6, 161)
(luminance 17.1910): channel rounding in the two-sided correction pushes
the luminance above its pre-stage value. -/
theorem apply_punctuation_luminance_claim_false :
    (punctuation_multipliers ("? blau".toList)).1 < 1 ∧
    Option.map ComputeResult.rgb (compute_color ("? blau".toList)
      {denominator := Denominator.VISIBLE, punctuation_mods := false}) = some (0, 0, 238) ∧
    Option.map ComputeResult.rgb (compute_color ("? blau".toList) {}) = some (6, 6, 161) ∧
    apply_punctuation (0, 0, 238) ("? blau".toList) {} = (6, 6, 161) ∧
    luminance_255 (0, 0, 238) < luminance_255 (6, 6, 161) := by
  have hsc : punctuation_score ("? blau".toList) = -1 := by decide
  have hm : punctuation_multipliers ("? blau".toList) = (17/20, 9/10) := by
    rw [punctuation_multipliers, hsc]; norm_num [PUNCT]
  have htr : transliterate_de ("? blau".toList) = "? blau".toList := by decide
  have hfreq : compute_rgb_freq ("? blau".toList) Denominator.VISIBLE = ((0, 0, 51), 5) := by
    have hl : letters_only ("? blau".toList) = ['b', 'l', 'a', 'u'] := by decide
    have hv : visible_len ("? blau".toList) = 5 := by decide
    have hr : List.countP (fun ch => ch = 'r' ∨ ch = 'R') ['b', 'l', 'a', 'u'] = 0 := by decide
    have hg : List.countP (fun ch => ch = 'g' ∨ ch = 'G') ['b', 'l', 'a', 'u'] = 0 := by decide
    have hbc : List.countP (fun ch => ch = 'b' ∨ ch = 'B') ['b', 'l', 'a', 'u'] = 1 := by decide
    have h0 : to_byte_0_1 (0:ℚ) = 0 := by norm_num [to_byte_0_1, py_round]
    have h2 : to_byte_0_1 ((1:ℚ)/5) = 51 := by norm_num [to_byte_0_1, py_round]
    rw [compute_rgb_freq]
    simp only [hl, hv, hr, hg, hbc]
    norm_num [h0, h2]
  have hover : blend_override (0, 0, 200) ("? blau".toList) = (0, 0, 238) := by
    have h : override_matches ("? blau".toList) = [((0,0,255), [])] := by decide
    rw [blend_override, find_override_and_weight, h]
    norm_num [suffix_weight, OVERRIDE_SUFFIX_WEIGHTS, List.lookup, py_round]
  have hpunct : apply_punctuation (0, 0, 238) ("? blau".toList) {} = (6, 6, 161) := by
    have hs : apply_saturation (0, 0, 238) (9/10) = (8, 8, 222) := by
      norm_num [apply_saturation, py_round, clamp_byte]
    have hb : apply_brightness (8, 8, 222) (17/20) = (7, 7, 189) := by
      norm_num [apply_brightness, py_round, clamp_byte]
    have hl1 : luminance_255 (0, 0, 238) = 42959/2500 := by norm_num [luminance_255]
    have hl2 : luminance_255 (7, 7, 189) = 50351/2500 := by norm_num [luminance_255]
    have hb2 : apply_brightness (7, 7, 189) (6137/7193) = (6, 6, 161) := by
      norm_num [apply_brightness, py_round, clamp_byte]
    rw [apply_punctuation]
    simp only [hm, hs, hb, hl1, hl2]
    norm_num [hb2]
  refine ⟨by rw [hm]; norm_num, ?_, ?_, hpunct, by norm_num [luminance_255]⟩
  · have hfloor : apply_length_floor (0, 0, 51) 5
        {denominator := Denominator.VISIBLE, punctuation_mods := false} = (0, 0, 200) := by
      norm_num [apply_length_floor, length_floor_target, LENGTH_FLOOR, py_round]
    have hpoff : apply_punctuation (0, 0, 238) ("? blau".toList)
        {denominator := Denominator.VISIBLE, punctuation_mods := false} = (0, 0, 238) := by decide
    rw [compute_color]
    simp only [htr, hfreq, hfloor, hover, hpoff, Option.map_some']
  · have hfloor : apply_length_floor (0, 0, 51) 5 ({} : ComputeConfig) = (0, 0, 200) := by
      norm_num [apply_length_floor, length_floor_target, LENGTH_FLOOR, py_round]
    rw [compute_color]
    simp only [htr, hfreq, hfloor, hover, hpunct, Option.map_some']

/-- Witness for the amended C1 at the concrete input (0, 0, 238), "? blau". -/
theorem apply_punctuation_luminance_direction_witness :
    in_byte_range ((0:ℤ), (0:ℤ), (238:ℤ)) ∧ (({} : ComputeConfig).punctuation_mods = true) ∧
    (((punctuation_multipliers ("? blau".toList)).1 < 1 →
      luminance_255 (apply_punctuation (0, 0, 238) ("? blau".toList) {}) ≤
        luminance_255 (0, 0, 238) + 1/2) ∧
    (1 < (punctuation_multipliers ("? blau".toList)).1 →
      min (luminance_255 (0, 0, 238))
        (luminance_255 (apply_brightness
          (apply_saturation (0, 0, 238) (punctuation_multipliers ("? blau".toList)).2)
          (punctuation_multipliers ("? blau".toList)).1)) ≤
      luminance_255 (apply_punctuation (0, 0, 238) ("? blau".toList) {}))) :=
  ⟨by decide, rfl,
    apply_punctuation_luminance_direction (by decide) ("? blau".toList) {} rfl⟩
theorem punctuation_score_zero {t : List Char} (hexc : '!' ∉ t) (hq : '?' ∉ t) :
    punctuation_score t = 0 := by
  rw [punctuation_score]
  have hce : t.count '!' = 0 := List.count_eq_zero.mpr hexc
  have hcq : t.count '?' = 0 := List.count_eq_zero.mpr hq
  rw [hce, hcq]
  cases htail : t.reverse.dropWhile py_is_space with
  | nil => norm_num [PUNCT]
  | cons c rest =>
    have hcmem : c ∈ t := by
      have h1 : c ∈ t.reverse.dropWhile py_is_space := by rw [htail]; exact List.mem_cons_self c rest
      have h2 : c ∈ t.reverse := (List.dropWhile_sublist _).mem h1
      exact List.mem_reverse.mp h2
    have hc1 : ¬(c = '!') := fun he => hexc (he ▸ hcmem)
    have hc2 : ¬(c = '?') := fun he => hq (he ▸ hcmem)
    simp only [hc1, hc2, if_false]
    norm_num [PUNCT]

theorem punctuation_multipliers_one {t : List Char} (hexc : '!' ∉ t) (hq : '?' ∉ t) :
    punctuation_multipliers t = (1, 1) := by
  rw [punctuation_multipliers, punctuation_score_zero hexc hq]
  norm_num [PUNCT]

theorem apply_saturation_one {rgb : RGB} (h : in_byte_range rgb) :
    apply_saturation rgb 1 = rgb := by
  obtain ⟨h1, h2, h3, h4, h5, h6⟩ := h
  have key : ∀ c : ℤ, 0 ≤ c → c ≤ 255 →
      clamp_byte (py_round (((rgb.1 : ℚ) + (rgb.2.1 : ℚ) + (rgb.2.2 : ℚ)) / 3 +
        ((c : ℚ) - ((rgb.1 : ℚ) + (rgb.2.1 : ℚ) + (rgb.2.2 : ℚ)) / 3) * 1)) = c := by
    intro c hc0 hc1
    have harg : ((rgb.1 : ℚ) + (rgb.2.1 : ℚ) + (rgb.2.2 : ℚ)) / 3 +
        ((c : ℚ) - ((rgb.1 : ℚ) + (rgb.2.1 : ℚ) + (rgb.2.2 : ℚ)) / 3) * 1 = (c : ℚ) := by
      ring
    rw [harg, py_round_intCast, clamp_byte_of_mem hc0 hc1]
  simp only [apply_saturation]
  rw [key _ h1 h2, key _ h3 h4, key _ h5 h6]

theorem apply_brightness_one {rgb : RGB} (h : in_byte_range rgb) :
    apply_brightness rgb 1 = rgb := by
  obtain ⟨h1, h2, h3, h4, h5, h6⟩ := h
  have key : ∀ c : ℤ, 0 ≤ c → c ≤ 255 →
      clamp_byte (py_round ((c : ℚ) * 1)) = c := by
    intro c hc0 hc1
    rw [mul_one, py_round_intCast, clamp_byte_of_mem hc0 hc1]
  simp only [apply_brightness]
  rw [key _ h1 h2, key _ h3 h4, key _ h5 h6]

theorem apply_punctuation_id {rgb : RGB} (h : in_byte_range rgb) {t : List Char}
    (hm : punctuation_multipliers t = (1, 1)) (cfg : ComputeConfig) :
    apply_punctuation rgb t cfg = rgb := by
  simp only [apply_punctuation]
  cases hpm : cfg.punctuation_mods with
  | false => simp
  | true =>
    simp only [hm, not_true_eq_false, if_false]
    rw [apply_saturation_one h, apply_brightness_one h]
    norm_num

/-- C10: for texts with no '!' and no '?', the rgb computed with punctuation
modulation enabled equals the rgb computed with it disabled: the punctuation
score is 0, both multipliers are exactly 1, and the saturation and
brightness adjustments at multiplier 1 are the identity on every RGB value
(with byte channels). -/
theorem compute_color_punctuation_noop (t : List Char) (d : Denominator) (fl : Bool)
    (m : ComputeMode) (hexc : '!' ∉ t) (hq : '?' ∉ t) :
    Option.map ComputeResult.rgb (compute_color t ⟨d, true, fl, m⟩) =
      Option.map ComputeResult.rgb (compute_color t ⟨d, false, fl, m⟩) ∧
    punctuation_score t = 0 ∧ punctuation_multipliers t = (1, 1) ∧
    (∀ rgb : RGB, in_byte_range rgb →
      apply_saturation rgb 1 = rgb ∧ apply_brightness rgb 1 = rgb) := by
  have hm1 : punctuation_multipliers t = (1, 1) := punctuation_multipliers_one hexc hq
  refine ⟨?_, punctuation_score_zero hexc hq, hm1,
    fun rgb hr => ⟨apply_saturation_one hr, apply_brightness_one hr⟩⟩
  cases m with
  | FREQ =>
    have hbase : ∀ p : Bool,
        Option.map ComputeResult.rgb (compute_color t ⟨d, p, fl, ComputeMode.FREQ⟩) =
        some (apply_punctuation (blend_override (apply_length_floor
          (compute_rgb_freq (transliterate_de t) d).1
          (compute_rgb_freq (transliterate_de t) d).2 ⟨d, true, fl, ComputeMode.FREQ⟩)
          (transliterate_de t)) t ⟨d, p, fl, ComputeMode.FREQ⟩) := fun p => rfl
    rw [hbase true, hbase false]
    have hw : in_byte_range (blend_override (apply_length_floor
        (compute_rgb_freq (transliterate_de t) d).1
        (compute_rgb_freq (transliterate_de t) d).2 ⟨d, true, fl, ComputeMode.FREQ⟩)
        (transliterate_de t)) :=
      blend_override_in_range
        (apply_length_floor_in_range (compute_rgb_freq_in_range _ _) _ _) _
    rw [apply_punctuation_id hw hm1, apply_punctuation_id hw hm1]
  | ANCHOR =>
    cases hca : compute_rgb_anchor (transliterate_de t) with
    | none =>
      have hnone : ∀ p : Bool, compute_color t ⟨d, p, fl, ComputeMode.ANCHOR⟩ = none := by
        intro p
        simp only [compute_color, hca]
      rw [hnone true, hnone false]
    | some base =>
      have hbase : ∀ p : Bool,
          Option.map ComputeResult.rgb (compute_color t ⟨d, p, fl, ComputeMode.ANCHOR⟩) =
          some (apply_punctuation (blend_override base (transliterate_de t)) t
            ⟨d, p, fl, ComputeMode.ANCHOR⟩) := by
        intro p
        simp only [compute_color, hca, Option.map_some']
      rw [hbase true, hbase false]
      have hw : in_byte_range (blend_override base (transliterate_de t)) :=
        blend_override_in_range (compute_rgb_anchor_some_in_range hca) _
      rw [apply_punctuation_id hw hm1, apply_punctuation_id hw hm1]

/-- Witness for C10 at the concrete input "gruen". -/
theorem compute_color_punctuation_noop_witness :
    ('!' ∉ "gruen".toList) ∧ ('?' ∉ "gruen".toList) ∧
    (Option.map ComputeResult.rgb (compute_color ("gruen".toList)
        ⟨Denominator.VISIBLE, true, true, ComputeMode.FREQ⟩) =
      Option.map ComputeResult.rgb (compute_color ("gruen".toList)
        ⟨Denominator.VISIBLE, false, true, ComputeMode.FREQ⟩) ∧
    punctuation_score ("gruen".toList) = 0 ∧
    punctuation_multipliers ("gruen".toList) = (1, 1) ∧
    (∀ rgb : RGB, in_byte_range rgb →
      apply_saturation rgb 1 = rgb ∧ apply_brightness rgb 1 = rgb)) :=
  ⟨by decide, by decide,
    compute_color_punctuation_noop ("gruen".toList) Denominator.VISIBLE true
      ComputeMode.FREQ (by decide) (by decide)⟩

/-- C2: the claim is false of the program, by an error path the code itself
disclaims: `_letter_index` promises `None` for non-letters, but for U+0130
('İ') Python's `lower()` yields the two-character string "i" + U+0307, which
passes the `"a" <= lower <= "z"` test, and `ord` then raises TypeError, so
in anchor mode `compute_color` crashes instead of returning a color.  On
every input on which `compute_color` does return, each rgb channel lies in
[0, 255]; frequency mode always returns. -/
theorem compute_color_rgb_in_byte_range :
    compute_color [Char.ofNat 304]
      ⟨Denominator.VISIBLE, true, true, ComputeMode.ANCHOR⟩ = none ∧
    (∀ (text : List Char) (cfg : ComputeConfig) (res : ComputeResult),
      compute_color text cfg = some res → in_byte_range res.rgb) ∧
    (∀ (text : List Char) (d : Denominator) (p fl : Bool),
      (compute_color text ⟨d, p, fl, ComputeMode.FREQ⟩).isSome = true) := by
  refine ⟨by decide, compute_color_rgb_bytes, ?_⟩
  intro text d p fl
  rfl

/-- Witness for C2 on the returning branch: the empty text with the default
configuration evaluates to a concrete result whose rgb is in byte range. -/
theorem compute_color_rgb_in_byte_range_witness :
    compute_color [] {} = some (ComputeResult.mk (0, 0, 0)
      ['#', '0', '0', '0', '0', '0', '0'] ['b', 'l', 'a', 'c', 'k']) ∧
    in_byte_range (ComputeResult.mk ((0:ℤ), (0:ℤ), (0:ℤ))
      ['#', '0', '0', '0', '0', '0', '0'] ['b', 'l', 'a', 'c', 'k']).rgb := by
  have heval : compute_color [] {} = some (ComputeResult.mk (0, 0, 0)
      ['#', '0', '0', '0', '0', '0', '0'] ['b', 'l', 'a', 'c', 'k']) := by
    have hfreq : compute_rgb_freq ([] : List Char) Denominator.VISIBLE = ((0, 0, 0), 0) := by
      have h0 : to_byte_0_1 (0 : ℚ) = 0 := by norm_num [to_byte_0_1, py_round]
      rw [compute_rgb_freq]
      simp only [letters_only, visible_len, List.filter_nil, List.length_nil,
        List.countP_nil, Nat.cast_zero]
      norm_num [h0]
    have hfloor : apply_length_floor (0, 0, 0) 0 ({} : ComputeConfig) = (0, 0, 0) := by decide
    have hover : blend_override (0, 0, 0) ([] : List Char) = (0, 0, 0) := by decide
    have hpunct : apply_punctuation (0, 0, 0) ([] : List Char) ({} : ComputeConfig) = (0, 0, 0) :=
      apply_punctuation_id (by decide)
        (punctuation_multipliers_one (by decide) (by decide)) {}
    have hhex : rgb_to_hex 0 0 0 = ['#', '0', '0', '0', '0', '0', '0'] := by decide
    have hname : resolve_display_name ((0:ℤ), (0:ℤ), (0:ℤ)) = ['b', 'l', 'a', 'c', 'k'] := by
      rw [resolve_display_name]
      norm_num [approx_color_name, rgb_to_hsv, max_self, min_self]
    have htr : transliterate_de ([] : List Char) = [] := by decide
    rw [compute_color]
    simp only [htr, hfreq, hfloor, hover, hpunct, hhex, hname]
  exact ⟨heval, compute_color_rgb_in_byte_range.2.1 [] {} _ heval⟩
/-- C6: the length-floor adjustment never decreases any channel: for byte
channels it either leaves the color unchanged or scales every channel up,
clamped at 255. -/
theorem apply_length_floor_pointwise_ge {rgb : RGB} (h : in_byte_range rgb)
    (base_count : ℤ) (cfg : ComputeConfig) :
    (rgb.1 ≤ (apply_length_floor rgb base_count cfg).1 ∧
     rgb.2.1 ≤ (apply_length_floor rgb base_count cfg).2.1 ∧
     rgb.2.2 ≤ (apply_length_floor rgb base_count cfg).2.2) ∧
    (apply_length_floor rgb base_count cfg = rgb ∨
     (0 < max rgb.1 (max rgb.2.1 rgb.2.2) ∧
      max rgb.1 (max rgb.2.1 rgb.2.2) < length_floor_target base_count ∧
      1 < ((length_floor_target base_count : ℤ) : ℚ) /
        ((max rgb.1 (max rgb.2.1 rgb.2.2) : ℤ) : ℚ) ∧
      apply_length_floor rgb base_count cfg =
        (min 255 (py_round ((rgb.1 : ℚ) * (((length_floor_target base_count : ℤ) : ℚ) /
          ((max rgb.1 (max rgb.2.1 rgb.2.2) : ℤ) : ℚ)))),
         min 255 (py_round ((rgb.2.1 : ℚ) * (((length_floor_target base_count : ℤ) : ℚ) /
          ((max rgb.1 (max rgb.2.1 rgb.2.2) : ℤ) : ℚ)))),
         min 255 (py_round ((rgb.2.2 : ℚ) * (((length_floor_target base_count : ℤ) : ℚ) /
          ((max rgb.1 (max rgb.2.1 rgb.2.2) : ℤ) : ℚ))))))) := by
  obtain ⟨h1, h2, h3, h4, h5, h6⟩ := h
  simp only [apply_length_floor]
  split_ifs with hflag hcur
  · exact ⟨⟨le_refl _, le_refl _, le_refl _⟩, Or.inl rfl⟩
  · exact ⟨⟨le_refl _, le_refl _, le_refl _⟩, Or.inl rfl⟩
  · push_neg at hcur
    have hc0 : (0 : ℚ) < ((max rgb.1 (max rgb.2.1 rgb.2.2) : ℤ) : ℚ) := by
      exact_mod_cast hcur.1
    have hfac : 1 ≤ ((length_floor_target base_count : ℤ) : ℚ) /
        ((max rgb.1 (max rgb.2.1 rgb.2.2) : ℤ) : ℚ) := by
      rw [le_div_iff₀ hc0, one_mul]
      exact_mod_cast le_of_lt hcur.2
    have hfac1 : 1 < ((length_floor_target base_count : ℤ) : ℚ) /
        ((max rgb.1 (max rgb.2.1 rgb.2.2) : ℤ) : ℚ) := by
      rw [lt_div_iff₀ hc0, one_mul]
      exact_mod_cast hcur.2
    have key : ∀ c : ℤ, 0 ≤ c → c ≤ 255 →
        c ≤ min 255 (py_round ((c : ℚ) * (((length_floor_target base_count : ℤ) : ℚ) /
          ((max rgb.1 (max rgb.2.1 rgb.2.2) : ℤ) : ℚ)))) := by
      intro c hc0' hc1'
      refine le_min hc1' (py_round_int_le ?_)
      have : (0:ℚ) ≤ (c : ℚ) := by exact_mod_cast hc0'
      nlinarith
    exact ⟨⟨key _ h1 h2, key _ h3 h4, key _ h5 h6⟩,
      Or.inr ⟨hcur.1, hcur.2, hfac1, rfl⟩⟩

/-- Witness for C6 at the concrete color (10, 20, 30) with base count 3. -/
theorem apply_length_floor_pointwise_ge_witness :
    in_byte_range ((10:ℤ), (20:ℤ), (30:ℤ)) ∧
    ((((10:ℤ), (20:ℤ), (30:ℤ)).1 ≤ (apply_length_floor (10, 20, 30) 3 {}).1 ∧
      ((10:ℤ), (20:ℤ), (30:ℤ)).2.1 ≤ (apply_length_floor (10, 20, 30) 3 {}).2.1 ∧
      ((10:ℤ), (20:ℤ), (30:ℤ)).2.2 ≤ (apply_length_floor (10, 20, 30) 3 {}).2.2) ∧
     (apply_length_floor (10, 20, 30) 3 {} = ((10:ℤ), (20:ℤ), (30:ℤ)) ∨
      (0 < max ((10:ℤ), (20:ℤ), (30:ℤ)).1
         (max ((10:ℤ), (20:ℤ), (30:ℤ)).2.1 ((10:ℤ), (20:ℤ), (30:ℤ)).2.2) ∧
       max ((10:ℤ), (20:ℤ), (30:ℤ)).1
         (max ((10:ℤ), (20:ℤ), (30:ℤ)).2.1 ((10:ℤ), (20:ℤ), (30:ℤ)).2.2) <
         length_floor_target 3 ∧
       1 < ((length_floor_target 3 : ℤ) : ℚ) /
         ((max ((10:ℤ), (20:ℤ), (30:ℤ)).1
           (max ((10:ℤ), (20:ℤ), (30:ℤ)).2.1 ((10:ℤ), (20:ℤ), (30:ℤ)).2.2) : ℤ) : ℚ) ∧
       apply_length_floor (10, 20, 30) 3 {} =
        (min 255 (py_round ((((10:ℤ), (20:ℤ), (30:ℤ)).1 : ℚ) *
           (((length_floor_target 3 : ℤ) : ℚ) /
            ((max ((10:ℤ), (20:ℤ), (30:ℤ)).1
              (max ((10:ℤ), (20:ℤ), (30:ℤ)).2.1 ((10:ℤ), (20:ℤ), (30:ℤ)).2.2) : ℤ) : ℚ)))),
         min 255 (py_round ((((10:ℤ), (20:ℤ), (30:ℤ)).2.1 : ℚ) *
           (((length_floor_target 3 : ℤ) : ℚ) /
            ((max ((10:ℤ), (20:ℤ), (30:ℤ)).1
              (max ((10:ℤ), (20:ℤ), (30:ℤ)).2.1 ((10:ℤ), (20:ℤ), (30:ℤ)).2.2) : ℤ) : ℚ)))),
         min 255 (py_round ((((10:ℤ), (20:ℤ), (30:ℤ)).2.2 : ℚ) *
           (((length_floor_target 3 : ℤ) : ℚ) /
            ((max ((10:ℤ), (20:ℤ), (30:ℤ)).1
              (max ((10:ℤ), (20:ℤ), (30:ℤ)).2.1 ((10:ℤ), (20:ℤ), (30:ℤ)).2.2) : ℤ) : ℚ)))))))) :=
  ⟨by decide, apply_length_floor_pointwise_ge (by decide) 3 {}⟩

/-- C5: `find_override_and_weight` returns `none` exactly when no pattern
matches; otherwise it returns the per-channel arithmetic mean (rounded to
nearest) of the target RGBs of all matches and the mean suffix weight
clamped to [0, 0.70] (0.70 being the bare-word weight).  Matches are not
deduplicated: "blau blau" produces two matches of the blau pattern, and in
"silbern" both the silber and the silbern stem match over the same
substring. -/
theorem find_override_and_weight_claim (t : List Char) :
    (find_override_and_weight t = none ↔ override_matches t = []) ∧
    (override_matches t ≠ [] →
      find_override_and_weight t = some
        ((py_round (((override_matches t).map (fun m => ((m.1.1 : ℤ) : ℚ))).sum /
            ((override_matches t).length : ℚ)),
          py_round (((override_matches t).map (fun m => ((m.1.2.1 : ℤ) : ℚ))).sum /
            ((override_matches t).length : ℚ)),
          py_round (((override_matches t).map (fun m => ((m.1.2.2 : ℤ) : ℚ))).sum /
            ((override_matches t).length : ℚ))),
         if ((override_matches t).map (fun m => suffix_weight m.2)).sum /
              ((override_matches t).length : ℚ) < 0 then 0
         else if (0.70 : ℚ) < ((override_matches t).map (fun m => suffix_weight m.2)).sum /
              ((override_matches t).length : ℚ) then 0.70
         else ((override_matches t).map (fun m => suffix_weight m.2)).sum /
              ((override_matches t).length : ℚ))) ∧
    (override_matches ("blau blau".toList)).length = 2 ∧
    (override_matches ("silbern".toList)).length = 2 := by
  refine ⟨?_, ?_, by decide, by decide⟩
  · rw [find_override_and_weight]
    simp only [override_foldl_eq, zero_add]
    split_ifs with hn
    · simp only [true_iff]
      exact List.length_eq_zero.mp hn
    · constructor
      · intro he
        exact absurd he (by simp)
      · intro he
        exact absurd (by rw [he]; rfl) hn
  · intro hne
    rw [find_override_and_weight]
    simp only [override_foldl_eq, zero_add]
    rw [if_neg (by simpa using (fun he => hne (List.length_eq_zero.mp he)))]
    rfl

/-- Witness for C5 at the concrete input "blau". -/
theorem find_override_and_weight_claim_witness :
    override_matches ("blau".toList) ≠ [] ∧
    find_override_and_weight ("blau".toList) = some
      ((py_round (((override_matches ("blau".toList)).map (fun m => ((m.1.1 : ℤ) : ℚ))).sum /
          ((override_matches ("blau".toList)).length : ℚ)),
        py_round (((override_matches ("blau".toList)).map (fun m => ((m.1.2.1 : ℤ) : ℚ))).sum /
          ((override_matches ("blau".toList)).length : ℚ)),
        py_round (((override_matches ("blau".toList)).map (fun m => ((m.1.2.2 : ℤ) : ℚ))).sum /
          ((override_matches ("blau".toList)).length : ℚ))),
       if ((override_matches ("blau".toList)).map (fun m => suffix_weight m.2)).sum /
            ((override_matches ("blau".toList)).length : ℚ) < 0 then 0
       else if (0.70 : ℚ) < ((override_matches ("blau".toList)).map (fun m => suffix_weight m.2)).sum /
            ((override_matches ("blau".toList)).length : ℚ) then 0.70
       else ((override_matches ("blau".toList)).map (fun m => suffix_weight m.2)).sum /
            ((override_matches ("blau".toList)).length : ℚ)) :=
  ⟨by decide, ((find_override_and_weight_claim ("blau".toList)).2.1 (by decide))⟩
/-- C7, counterexample to the claim as stated: the Kelvin sign U+212A is
not an ASCII letter, yet Python's `lower()` maps it to 'k', so
`_letter_index` gives it index 10 and the single-character text yields pure
green (0, 255, 0) in anchor mode rather than the claimed black base
(0, 0, 0). -/
theorem compute_rgb_anchor_claim_false :
    letters_only (transliterate_de [Char.ofNat 8490]) = [] ∧
    letter_index (Char.ofNat 8490) = some (some 10) ∧
    compute_rgb_anchor (transliterate_de [Char.ofNat 8490]) = some (0, 255, 0) ∧
    compute_rgb_anchor (transliterate_de [Char.ofNat 8490]) ≠
      some ((0 : ℤ), (0 : ℤ), (0 : ℤ)) := by
  have htr : transliterate_de [Char.ofNat 8490] = [Char.ofNat 8490] := by decide
  have hli : letter_index (Char.ofNat 8490) = some (some 10) := by decide
  have hnak : nearest_anchor_keys 10 = ['G'] := by decide
  have hstep : anchor_step (0, 0, 0) 10 = (0, 1, 0) := by
    rw [anchor_step, hnak]
    norm_num [show ('R' : Char) ≠ 'G' from by decide, show ('B' : Char) ≠ 'G' from by decide]
  have hsums : anchor_sums [Char.ofNat 8490] = some (0, 1, 0) := by
    rw [anchor_sums]
    simp only [anchor_sums_go, hli, hstep]
  have hres : compute_rgb_anchor [Char.ofNat 8490] = some (0, 255, 0) := by
    simp only [compute_rgb_anchor, hsums]
    norm_num [max_def, py_round]
  refine ⟨by decide, hli, ?_, ?_⟩
  · rw [htr]
    exact hres
  · rw [htr, hres]
    decide

/-- C7 (amended): the anchor-mode base color is driven by `_letter_index`,
not by the ASCII letter set: a text every character of which gets `None`
yields the base RGB (0, 0, 0); when the character loop completes with sums
`s`, a zero maximal sum yields (0, 0, 0), and otherwise each channel is its
sum scaled by 255 over the maximal sum and rounded to nearest, every anchor
achieving the maximal sum maps to exactly 255, and some anchor does achieve
it. -/
theorem compute_rgb_anchor_claim (t : List Char) :
    ((∀ c ∈ transliterate_de t, letter_index c = some none) →
      compute_rgb_anchor (transliterate_de t) = some (0, 0, 0)) ∧
    (∀ s : ℚ × ℚ × ℚ, anchor_sums (transliterate_de t) = some s →
      (max s.1 (max s.2.1 s.2.2) = 0 →
        compute_rgb_anchor (transliterate_de t) = some (0, 0, 0)) ∧
      (max s.1 (max s.2.1 s.2.2) ≠ 0 →
        compute_rgb_anchor (transliterate_de t) =
          some (py_round (s.1 * (255 / max s.1 (max s.2.1 s.2.2))),
                py_round (s.2.1 * (255 / max s.1 (max s.2.1 s.2.2))),
                py_round (s.2.2 * (255 / max s.1 (max s.2.1 s.2.2)))) ∧
        (∀ x : ℚ, x = max s.1 (max s.2.1 s.2.2) →
          py_round (x * (255 / max s.1 (max s.2.1 s.2.2))) = 255) ∧
        (s.1 = max s.1 (max s.2.1 s.2.2) ∨ s.2.1 = max s.1 (max s.2.1 s.2.2) ∨
         s.2.2 = max s.1 (max s.2.1 s.2.2)))) := by
  have hnone : ∀ (l : List Char), (∀ c ∈ l, letter_index c = some none) →
      ∀ counts : ℚ × ℚ × ℚ, anchor_sums_go counts l = some counts := by
    intro l
    induction l with
    | nil => intro _ counts; rfl
    | cons c cs ih =>
      intro hall counts
      have hc := hall c (List.mem_cons_self c cs)
      simp only [anchor_sums_go, hc]
      exact ih (fun x hx => hall x (List.mem_cons_of_mem c hx)) counts
  constructor
  · intro hall
    have hs : anchor_sums (transliterate_de t) = some (0, 0, 0) :=
      hnone _ hall (0, 0, 0)
    simp only [compute_rgb_anchor, hs]
    norm_num
  · intro s hs
    refine ⟨?_, ?_⟩
    · intro hmax
      simp only [compute_rgb_anchor, hs]
      rw [if_pos hmax]
    · intro hmax
      refine ⟨?_, ?_, ?_⟩
      · simp only [compute_rgb_anchor, hs]
        rw [if_neg hmax]
      · intro x hx
        rw [hx, mul_div_assoc', mul_comm, mul_div_assoc, div_self hmax, mul_one]
        rw [show (255 : ℚ) = ((255 : ℤ) : ℚ) from by norm_num, py_round_intCast]
      · rcases max_choice s.1 (max s.2.1 s.2.2) with hx | hx
        · exact Or.inl hx.symm
        · rcases max_choice s.2.1 s.2.2 with hy | hy
          · exact Or.inr (Or.inl (by rw [hx, hy]))
          · exact Or.inr (Or.inr (by rw [hx, hy]))

/-- Witness for the amended C7 at the concrete input "aaa" (every letter
nearest to the b anchor, so the base color is pure blue). -/
theorem compute_rgb_anchor_claim_witness :
    anchor_sums (transliterate_de ("aaa".toList)) = some (0, 0, 3) ∧
    ((max ((0:ℚ), (0:ℚ), (3:ℚ)).1 (max ((0:ℚ), (0:ℚ), (3:ℚ)).2.1 ((0:ℚ), (0:ℚ), (3:ℚ)).2.2) = 0 →
      compute_rgb_anchor (transliterate_de ("aaa".toList)) = some (0, 0, 0)) ∧
     (max ((0:ℚ), (0:ℚ), (3:ℚ)).1 (max ((0:ℚ), (0:ℚ), (3:ℚ)).2.1 ((0:ℚ), (0:ℚ), (3:ℚ)).2.2) ≠ 0 →
      compute_rgb_anchor (transliterate_de ("aaa".toList)) =
        some (py_round (((0:ℚ), (0:ℚ), (3:ℚ)).1 * (255 / max ((0:ℚ), (0:ℚ), (3:ℚ)).1
                (max ((0:ℚ), (0:ℚ), (3:ℚ)).2.1 ((0:ℚ), (0:ℚ), (3:ℚ)).2.2))),
              py_round (((0:ℚ), (0:ℚ), (3:ℚ)).2.1 * (255 / max ((0:ℚ), (0:ℚ), (3:ℚ)).1
                (max ((0:ℚ), (0:ℚ), (3:ℚ)).2.1 ((0:ℚ), (0:ℚ), (3:ℚ)).2.2))),
              py_round (((0:ℚ), (0:ℚ), (3:ℚ)).2.2 * (255 / max ((0:ℚ), (0:ℚ), (3:ℚ)).1
                (max ((0:ℚ), (0:ℚ), (3:ℚ)).2.1 ((0:ℚ), (0:ℚ), (3:ℚ)).2.2)))) ∧
      (∀ x : ℚ, x = max ((0:ℚ), (0:ℚ), (3:ℚ)).1
          (max ((0:ℚ), (0:ℚ), (3:ℚ)).2.1 ((0:ℚ), (0:ℚ), (3:ℚ)).2.2) →
        py_round (x * (255 / max ((0:ℚ), (0:ℚ), (3:ℚ)).1
          (max ((0:ℚ), (0:ℚ), (3:ℚ)).2.1 ((0:ℚ), (0:ℚ), (3:ℚ)).2.2))) = 255) ∧
      (((0:ℚ), (0:ℚ), (3:ℚ)).1 = max ((0:ℚ), (0:ℚ), (3:ℚ)).1
          (max ((0:ℚ), (0:ℚ), (3:ℚ)).2.1 ((0:ℚ), (0:ℚ), (3:ℚ)).2.2) ∨
       ((0:ℚ), (0:ℚ), (3:ℚ)).2.1 = max ((0:ℚ), (0:ℚ), (3:ℚ)).1
          (max ((0:ℚ), (0:ℚ), (3:ℚ)).2.1 ((0:ℚ), (0:ℚ), (3:ℚ)).2.2) ∨
       ((0:ℚ), (0:ℚ), (3:ℚ)).2.2 = max ((0:ℚ), (0:ℚ), (3:ℚ)).1
          (max ((0:ℚ), (0:ℚ), (3:ℚ)).2.1 ((0:ℚ), (0:ℚ), (3:ℚ)).2.2)))) := by
  have hli : letter_index 'a' = some (some 0) := by decide
  have hnak : nearest_anchor_keys 0 = ['B'] := by decide
  have h1 : anchor_step (0, 0, 0) 0 = (0, 0, 1) := by
    rw [anchor_step, hnak]
    norm_num [show ('R' : Char) ≠ 'B' from by decide, show ('G' : Char) ≠ 'B' from by decide]
  have h2 : anchor_step (0, 0, 1) 0 = (0, 0, 2) := by
    rw [anchor_step, hnak]
    norm_num [show ('R' : Char) ≠ 'B' from by decide, show ('G' : Char) ≠ 'B' from by decide]
  have h3 : anchor_step (0, 0, 2) 0 = (0, 0, 3) := by
    rw [anchor_step, hnak]
    norm_num [show ('R' : Char) ≠ 'B' from by decide, show ('G' : Char) ≠ 'B' from by decide]
  have htr : transliterate_de ("aaa".toList) = ['a', 'a', 'a'] := by decide
  have hsums : anchor_sums (transliterate_de ("aaa".toList)) = some (0, 0, 3) := by
    rw [htr, anchor_sums]
    simp only [anchor_sums_go, hli, h1, h2, h3]
  exact ⟨hsums, (compute_rgb_anchor_claim ("aaa".toList)).2 (0, 0, 3) hsums⟩
/-- C3, counterexample to the claim as stated: under the letters denominator
policy the input "rg-----" has base count 2 (letters r and g) but visible
length 7; the code targets peak 200 (from the base count) and returns
(200, 200, 0), while the claim's visible-length reading targets
200 - 5 = 195 and would return (195, 195, 0). -/
theorem length_floor_visible_claim_false :
    Option.map ComputeResult.rgb (compute_color ("rg-----".toList)
      ⟨Denominator.LETTERS, false, true, ComputeMode.FREQ⟩) = some (200, 200, 0) ∧
    compute_rgb_claimC3 ("rg-----".toList)
      ⟨Denominator.LETTERS, false, true, ComputeMode.FREQ⟩ = some (195, 195, 0) ∧
    Option.map ComputeResult.rgb (compute_color ("rg-----".toList)
      ⟨Denominator.LETTERS, false, true, ComputeMode.FREQ⟩) ≠
      compute_rgb_claimC3 ("rg-----".toList)
        ⟨Denominator.LETTERS, false, true, ComputeMode.FREQ⟩ := by
  have htr : transliterate_de ("rg-----".toList) = "rg-----".toList := by decide
  have hfreq : compute_rgb_freq ("rg-----".toList) Denominator.LETTERS = ((128, 128, 0), 2) := by
    have hl : letters_only ("rg-----".toList) = ['r', 'g'] := by decide
    have hr : List.countP (fun ch => ch = 'r' ∨ ch = 'R') ['r', 'g'] = 1 := by decide
    have hg : List.countP (fun ch => ch = 'g' ∨ ch = 'G') ['r', 'g'] = 1 := by decide
    have hbc : List.countP (fun ch => ch = 'b' ∨ ch = 'B') ['r', 'g'] = 0 := by decide
    have h0 : to_byte_0_1 (0:ℚ) = 0 := by norm_num [to_byte_0_1, py_round]
    have h2 : to_byte_0_1 ((1:ℚ)/2) = 128 := by norm_num [to_byte_0_1, py_round]
    rw [compute_rgb_freq]
    simp only [hl, hr, hg, hbc]
    norm_num [h0, h2]
  have hover : blend_override (200, 200, 0) ("rg-----".toList) = (200, 200, 0) := by decide
  have hover2 : blend_override (195, 195, 0) ("rg-----".toList) = (195, 195, 0) := by decide
  have hpoff : ∀ x : RGB, apply_punctuation x ("rg-----".toList)
      ⟨Denominator.LETTERS, false, true, ComputeMode.FREQ⟩ = x := by
    intro x
    rw [apply_punctuation]
    simp
  have hfloor : apply_length_floor (128, 128, 0) 2
      ⟨Denominator.LETTERS, false, true, ComputeMode.FREQ⟩ = (200, 200, 0) := by
    norm_num [apply_length_floor, length_floor_target, LENGTH_FLOOR, py_round]
  have hvis : visible_len ("rg-----".toList) = 7 := by decide
  have hfloorc : apply_length_floor_claimC3 (128, 128, 0) 2 7
      ⟨Denominator.LETTERS, false, true, ComputeMode.FREQ⟩ = (195, 195, 0) := by
    norm_num [apply_length_floor_claimC3, length_floor_target, LENGTH_FLOOR, py_round]
  refine ⟨?_, ?_, ?_⟩
  · rw [compute_color]
    simp only [htr, hfreq, hfloor, hover, hpoff, Option.map_some']
  · rw [compute_rgb_claimC3]
    simp only [htr, hfreq, hvis, Nat.cast_ofNat, hfloorc, hover2, hpoff]
  · intro he
    rw [compute_color] at he
    simp only [htr, hfreq, hfloor, hover, hpoff, Option.map_some'] at he
    rw [compute_rgb_claimC3] at he
    simp only [htr, hfreq, hvis, Nat.cast_ofNat, hfloorc, hover2, hpoff] at he
    exact absurd he (by decide)

/-- C3 (amended): the length-floor stage derives its target peak from the
base count of the configured denominator policy, with the schedule of the
claim (at or below 6 the target is 200, at or above 30 it is 80, in between
it steps down from 200 by 5 per unit); the base count equals the visible
(non-whitespace) character count of the transliterated input exactly under
the visible denominator policy, where the claim's visible-length reading of
the stage therefore holds. -/
theorem length_floor_target_claim (t : List Char) (cfg : ComputeConfig) (n : ℤ)
    (hmode : cfg.mode = ComputeMode.FREQ) (hfl : cfg.apply_length_floor = true)
    (hbase : 0 < (compute_rgb_freq (transliterate_de t) cfg.denominator).2)
    (hden : cfg.denominator = Denominator.VISIBLE) :
    length_floor_target n =
      (if n ≤ 6 then 200 else if 30 ≤ n then 80 else 200 - 5 * (n - 6)) ∧
    (compute_rgb_freq (transliterate_de t) cfg.denominator).2 =
      ((visible_len (transliterate_de t) : ℕ) : ℤ) ∧
    Option.map ComputeResult.rgb (compute_color t cfg) =
      some (apply_punctuation (blend_override
        (apply_length_floor_claimC3
          (compute_rgb_freq (transliterate_de t) cfg.denominator).1
          (compute_rgb_freq (transliterate_de t) cfg.denominator).2
          ((visible_len (transliterate_de t) : ℕ) : ℤ) cfg)
        (transliterate_de t)) t cfg) := by
  obtain ⟨d, p, f, m⟩ := cfg
  simp only at hmode hden
  subst hmode
  subst hden
  refine ⟨by simp [length_floor_target, LENGTH_FLOOR], rfl, rfl⟩

/-- Witness for the amended C3 at the concrete input "rgb" with the default
configuration. -/
theorem length_floor_target_claim_witness :
    (({} : ComputeConfig).mode = ComputeMode.FREQ) ∧
    (({} : ComputeConfig).apply_length_floor = true) ∧
    (0 < (compute_rgb_freq (transliterate_de ("rgb".toList)) ({} : ComputeConfig).denominator).2) ∧
    (({} : ComputeConfig).denominator = Denominator.VISIBLE) ∧
    (length_floor_target 10 =
      (if (10:ℤ) ≤ 6 then 200 else if (30:ℤ) ≤ 10 then 80 else 200 - 5 * (10 - 6)) ∧
    (compute_rgb_freq (transliterate_de ("rgb".toList)) ({} : ComputeConfig).denominator).2 =
      ((visible_len (transliterate_de ("rgb".toList)) : ℕ) : ℤ) ∧
    Option.map ComputeResult.rgb (compute_color ("rgb".toList) {}) =
      some (apply_punctuation (blend_override
        (apply_length_floor_claimC3
          (compute_rgb_freq (transliterate_de ("rgb".toList)) ({} : ComputeConfig).denominator).1
          (compute_rgb_freq (transliterate_de ("rgb".toList)) ({} : ComputeConfig).denominator).2
          ((visible_len (transliterate_de ("rgb".toList)) : ℕ) : ℤ) {})
        (transliterate_de ("rgb".toList))) ("rgb".toList) {})) :=
  ⟨rfl, rfl, by decide, rfl,
    length_floor_target_claim ("rgb".toList) {} 10 rfl rfl (by decide) rfl⟩
set_option maxHeartbeats 2000000

theorem rgb_to_hsv_hue_bounds (r g b : ℚ) :
    0 ≤ (rgb_to_hsv r g b).1 ∧ (rgb_to_hsv r g b).1 < 1 := by
  rw [rgb_to_hsv]
  split_ifs
  · exact ⟨le_refl 0, by norm_num⟩
  all_goals exact ⟨Int.fract_nonneg _, Int.fract_lt_one _⟩

theorem hue_band_lookup_full {h : ℚ} (h0 : 0 ≤ h) :
    (hue_band_lookup h HUE_BANDS = DEFAULT_HUE_NAME ↔ 350 ≤ h) := by
  rw [HUE_BANDS]
  simp only [hue_band_lookup]
  split_ifs with b1 b2 b3 b4 b5 b6 b7 b8 b9 b10
  · exact iff_of_false (by decide) (not_le.mpr (by linarith [b1.2]))
  · exact iff_of_false (by decide) (not_le.mpr (by linarith [b2.2]))
  · exact iff_of_false (by decide) (not_le.mpr (by linarith [b3.2]))
  · exact iff_of_false (by decide) (not_le.mpr (by linarith [b4.2]))
  · exact iff_of_false (by decide) (not_le.mpr (by linarith [b5.2]))
  · exact iff_of_false (by decide) (not_le.mpr (by linarith [b6.2]))
  · exact iff_of_false (by decide) (not_le.mpr (by linarith [b7.2]))
  · exact iff_of_false (by decide) (not_le.mpr (by linarith [b8.2]))
  · exact iff_of_false (by decide) (not_le.mpr (by linarith [b9.2]))
  · exact iff_of_false (by decide) (not_le.mpr (by linarith [b10.2]))
  · push_neg at b1 b2 b3 b4 b5 b6 b7 b8 b9 b10
    refine iff_of_true rfl ?_
    have c1 := b1 h0
    have c2 := b2 (by linarith)
    have c3 := b3 (by linarith)
    have c4 := b4 (by linarith)
    have c5 := b5 (by linarith)
    have c6 := b6 (by linarith)
    have c7 := b7 (by linarith)
    have c8 := b8 (by linarith)
    have c9 := b9 (by linarith)
    exact b10 (by linarith)

/-- C4 (amended): the ten hue bands cover only [0, 350).  For an RGB input
that reaches the hue lookup (not classified black, white or gray by the
earlier thresholds), `approx_color_name` returns the guarded default
"pinkish" exactly when the hue is at least 350 degrees; for every hue below
350 some band matches and its name is returned. -/
theorem approx_color_name_bands (red green blue : ℤ)
    (hv : ¬((rgb_to_hsv ((red : ℚ) / 255) ((green : ℚ) / 255) ((blue : ℚ) / 255)).2.2 < 0.12))
    (hw : ¬((rgb_to_hsv ((red : ℚ) / 255) ((green : ℚ) / 255) ((blue : ℚ) / 255)).2.2 > 0.92 ∧
      (rgb_to_hsv ((red : ℚ) / 255) ((green : ℚ) / 255) ((blue : ℚ) / 255)).2.1 < 0.15))
    (hg : ¬((rgb_to_hsv ((red : ℚ) / 255) ((green : ℚ) / 255) ((blue : ℚ) / 255)).2.1 < 0.12)) :
    (approx_color_name red green blue = DEFAULT_HUE_NAME ↔
      350 ≤ hue_degrees_of red green blue) := by
  obtain ⟨hh0, hh1⟩ := rgb_to_hsv_hue_bounds ((red : ℚ) / 255) ((green : ℚ) / 255) ((blue : ℚ) / 255)
  rw [approx_color_name]
  simp only [if_neg hv, if_neg hw, if_neg hg]
  exact hue_band_lookup_full (by positivity)

set_option maxRecDepth 16000

/-- C4, counterexample to the claim as stated: the color (255, 0, 21) has
HSV value 1, saturation 1 and hue ≈ 355.06 degrees, so it passes every
guard and reaches the hue lookup, yet no band contains its hue (the table
ends at 350) and `approx_color_name` returns the default "pinkish". -/
theorem approx_color_name_bands_claim_false :
    (¬((rgb_to_hsv (((255 : ℤ) : ℚ) / 255) (((0 : ℤ) : ℚ) / 255) (((21 : ℤ) : ℚ) / 255)).2.2 < 0.12)) ∧
    (¬((rgb_to_hsv (((255 : ℤ) : ℚ) / 255) (((0 : ℤ) : ℚ) / 255) (((21 : ℤ) : ℚ) / 255)).2.2 > 0.92 ∧
      (rgb_to_hsv (((255 : ℤ) : ℚ) / 255) (((0 : ℤ) : ℚ) / 255) (((21 : ℤ) : ℚ) / 255)).2.1 < 0.15)) ∧
    (¬((rgb_to_hsv (((255 : ℤ) : ℚ) / 255) (((0 : ℤ) : ℚ) / 255) (((21 : ℤ) : ℚ) / 255)).2.1 < 0.12)) ∧
    approx_color_name 255 0 21 = DEFAULT_HUE_NAME := by
  have hsv_eval : rgb_to_hsv (((255 : ℤ) : ℚ) / 255) (((0 : ℤ) : ℚ) / 255) (((21 : ℤ) : ℚ) / 255) =
      (503/510, 1, 1) := by
    rw [rgb_to_hsv]
    norm_num [Int.fract]
  have hsv_eval2 : rgb_to_hsv 1 0 (7/85) = (503/510, 1, 1) := by
    rw [rgb_to_hsv]
    norm_num [Int.fract]
  refine ⟨by rw [hsv_eval]; norm_num, by rw [hsv_eval]; norm_num, by rw [hsv_eval]; norm_num, ?_⟩
  rw [approx_color_name]
  norm_num [hsv_eval2, hue_band_lookup, HUE_BANDS]

/-- Witness for the amended C4 at the pure red input (255, 0, 0): the hue is
0, below 350, and the name returned is not "pinkish". -/
theorem approx_color_name_bands_witness :
    (¬((rgb_to_hsv (((255 : ℤ) : ℚ) / 255) (((0 : ℤ) : ℚ) / 255) (((0 : ℤ) : ℚ) / 255)).2.2 < 0.12)) ∧
    (¬((rgb_to_hsv (((255 : ℤ) : ℚ) / 255) (((0 : ℤ) : ℚ) / 255) (((0 : ℤ) : ℚ) / 255)).2.2 > 0.92 ∧
      (rgb_to_hsv (((255 : ℤ) : ℚ) / 255) (((0 : ℤ) : ℚ) / 255) (((0 : ℤ) : ℚ) / 255)).2.1 < 0.15)) ∧
    (¬((rgb_to_hsv (((255 : ℤ) : ℚ) / 255) (((0 : ℤ) : ℚ) / 255) (((0 : ℤ) : ℚ) / 255)).2.1 < 0.12)) ∧
    (approx_color_name 255 0 0 = DEFAULT_HUE_NAME ↔ 350 ≤ hue_degrees_of 255 0 0) := by
  have hsv_eval : rgb_to_hsv (((255 : ℤ) : ℚ) / 255) (((0 : ℤ) : ℚ) / 255) (((0 : ℤ) : ℚ) / 255) =
      (0, 1, 1) := by
    rw [rgb_to_hsv]
    norm_num [Int.fract]
  have h1 : ¬((rgb_to_hsv (((255 : ℤ) : ℚ) / 255) (((0 : ℤ) : ℚ) / 255) (((0 : ℤ) : ℚ) / 255)).2.2 < 0.12) := by
    rw [hsv_eval]; norm_num
  have h2 : ¬((rgb_to_hsv (((255 : ℤ) : ℚ) / 255) (((0 : ℤ) : ℚ) / 255) (((0 : ℤ) : ℚ) / 255)).2.2 > 0.92 ∧
      (rgb_to_hsv (((255 : ℤ) : ℚ) / 255) (((0 : ℤ) : ℚ) / 255) (((0 : ℤ) : ℚ) / 255)).2.1 < 0.15) := by
    rw [hsv_eval]; norm_num
  have h3 : ¬((rgb_to_hsv (((255 : ℤ) : ℚ) / 255) (((0 : ℤ) : ℚ) / 255) (((0 : ℤ) : ℚ) / 255)).2.1 < 0.12) := by
    rw [hsv_eval]; norm_num
  exact ⟨h1, h2, h3, approx_color_name_bands 255 0 0 h1 h2 h3⟩
theorem transliterate_de_append (a b : List Char) :
    transliterate_de (a ++ b) = transliterate_de a ++ transliterate_de b := by
  simp [transliterate_de]

theorem transliterate_de_cons (c : Char) (b : List Char) :
    transliterate_de (c :: b) = trans_map c ++ transliterate_de b := by
  simp [transliterate_de]

/-- C8: `transliterate_de` replaces each occurrence of ä, ö, ü, ß and their
uppercase forms with the ASCII digraphs ae/oe/ue/ss (keeping the case of
the first letter), and every other character passes through unchanged in
its original position. -/
theorem transliterate_de_claim :
    (∀ a b : List Char, transliterate_de (a ++ 'ä' :: b) =
      transliterate_de a ++ 'a' :: 'e' :: transliterate_de b) ∧
    (∀ a b : List Char, transliterate_de (a ++ 'ö' :: b) =
      transliterate_de a ++ 'o' :: 'e' :: transliterate_de b) ∧
    (∀ a b : List Char, transliterate_de (a ++ 'ü' :: b) =
      transliterate_de a ++ 'u' :: 'e' :: transliterate_de b) ∧
    (∀ a b : List Char, transliterate_de (a ++ 'Ä' :: b) =
      transliterate_de a ++ 'A' :: 'e' :: transliterate_de b) ∧
    (∀ a b : List Char, transliterate_de (a ++ 'Ö' :: b) =
      transliterate_de a ++ 'O' :: 'e' :: transliterate_de b) ∧
    (∀ a b : List Char, transliterate_de (a ++ 'Ü' :: b) =
      transliterate_de a ++ 'U' :: 'e' :: transliterate_de b) ∧
    (∀ a b : List Char, transliterate_de (a ++ 'ß' :: b) =
      transliterate_de a ++ 's' :: 's' :: transliterate_de b) ∧
    (∀ c : Char, c ∉ UMLAUT_KEYS → ∀ a b : List Char,
      transliterate_de (a ++ c :: b) = transliterate_de a ++ c :: transliterate_de b) := by
  have key : ∀ c : Char, ∀ a b : List Char, transliterate_de (a ++ c :: b) =
      transliterate_de a ++ trans_map c ++ transliterate_de b := by
    intro c a b
    rw [transliterate_de_append, transliterate_de_cons, List.append_assoc]
  refine ⟨fun a b => by rw [key]; simp [trans_map], fun a b => by rw [key]; simp [trans_map],
    fun a b => by rw [key]; simp [trans_map], fun a b => by rw [key]; simp [trans_map],
    fun a b => by rw [key]; simp [trans_map], fun a b => by rw [key]; simp [trans_map],
    fun a b => by rw [key]; simp [trans_map], ?_⟩
  intro c hmem a b
  obtain ⟨n1, n2, n3, n4, n5, n6, n7⟩ :
      c ≠ 'ä' ∧ c ≠ 'ö' ∧ c ≠ 'ü' ∧ c ≠ 'Ä' ∧ c ≠ 'Ö' ∧ c ≠ 'Ü' ∧ c ≠ 'ß' := by
    simpa [UMLAUT_KEYS] using hmem
  have hmap : trans_map c = [c] := by
    rw [trans_map, if_neg n1, if_neg n2, if_neg n3, if_neg n4, if_neg n5, if_neg n6, if_neg n7]
  rw [key, hmap]
  simp

/-- Witness for C8 at the concrete text "f" ++ "x" ++ "n" with the
pass-through character 'x'. -/
theorem transliterate_de_claim_witness :
    ('x' ∉ UMLAUT_KEYS) ∧
    transliterate_de (['f'] ++ 'x' :: ['n']) =
      transliterate_de ['f'] ++ 'x' :: transliterate_de ['n'] :=
  ⟨by decide, transliterate_de_claim.2.2.2.2.2.2.2 'x' (by decide) ['f'] ['n']⟩

theorem hex_digit_val_char {k : ℕ} (hk : k < 16) :
    hex_digit_val (hex_digit_char k) = some k := by
  interval_cases k <;> rfl

theorem hex_decode_rgb_to_hex {r g b : ℤ} (h1 : 0 ≤ r) (h2 : r ≤ 255) (h3 : 0 ≤ g)
    (h4 : g ≤ 255) (h5 : 0 ≤ b) (h6 : b ≤ 255) :
    hex_decode (rgb_to_hex r g b) = some (r, g, b) := by
  have e : rgb_to_hex r g b =
      ['#', hex_digit_char (r.toNat / 16 % 16), hex_digit_char (r.toNat % 16),
       hex_digit_char (g.toNat / 16 % 16), hex_digit_char (g.toNat % 16),
       hex_digit_char (b.toNat / 16 % 16), hex_digit_char (b.toNat % 16)] := rfl
  rw [e, hex_decode]
  rw [hex_digit_val_char (by omega), hex_digit_val_char (by omega),
    hex_digit_val_char (by omega), hex_digit_val_char (by omega),
    hex_digit_val_char (by omega), hex_digit_val_char (by omega)]
  simp only [Option.some.injEq, Prod.mk.injEq]
  refine ⟨?_, ?_, ?_⟩ <;> omega

/-- C9: the hex field of every returned result is the exact uppercase
`#RRGGBB` encoding of its rgb field (two zero-padded uppercase hexadecimal
digits per channel): it equals `rgb_to_hex` of the returned channels, and
decoding the seven-character string recovers exactly the returned rgb. -/
theorem compute_color_hex_claim (t : List Char) (cfg : ComputeConfig)
    (res : ComputeResult) (h : compute_color t cfg = some res) :
    res.hex = rgb_to_hex res.rgb.1 res.rgb.2.1 res.rgb.2.2 ∧
    hex_decode res.hex = some res.rgb := by
  obtain ⟨h1, h2, h3, h4, h5, h6⟩ := compute_color_rgb_bytes t cfg res h
  have hhex : res.hex = rgb_to_hex res.rgb.1 res.rgb.2.1 res.rgb.2.2 := by
    obtain ⟨d, p, f, m⟩ := cfg
    cases m with
    | FREQ =>
      simp only [compute_color] at h
      rw [Option.some.injEq] at h
      subst h
      rfl
    | ANCHOR =>
      cases hca : compute_rgb_anchor (transliterate_de t) with
      | none =>
        simp only [compute_color, hca] at h
        exact Option.noConfusion h
      | some base =>
        simp only [compute_color, hca] at h
        rw [Option.some.injEq] at h
        subst h
        rfl
  refine ⟨hhex, ?_⟩
  rw [hhex]
  exact hex_decode_rgb_to_hex h1 h2 h3 h4 h5 h6

/-- Witness for C9 at the concrete input "b" with the default configuration:
the result is pure blue, its hex is "#0000FF", and decoding recovers the
rgb. -/
theorem compute_color_hex_claim_witness :
    compute_color ("b".toList) {} = some (ComputeResult.mk ((0:ℤ), (0:ℤ), (255:ℤ))
      ['#', '0', '0', '0', '0', 'F', 'F'] ['b', 'l', 'u', 'e']) ∧
    ((ComputeResult.mk ((0:ℤ), (0:ℤ), (255:ℤ))
        ['#', '0', '0', '0', '0', 'F', 'F'] ['b', 'l', 'u', 'e']).hex =
      rgb_to_hex (ComputeResult.mk ((0:ℤ), (0:ℤ), (255:ℤ))
          ['#', '0', '0', '0', '0', 'F', 'F'] ['b', 'l', 'u', 'e']).rgb.1
        (ComputeResult.mk ((0:ℤ), (0:ℤ), (255:ℤ))
          ['#', '0', '0', '0', '0', 'F', 'F'] ['b', 'l', 'u', 'e']).rgb.2.1
        (ComputeResult.mk ((0:ℤ), (0:ℤ), (255:ℤ))
          ['#', '0', '0', '0', '0', 'F', 'F'] ['b', 'l', 'u', 'e']).rgb.2.2 ∧
     hex_decode (ComputeResult.mk ((0:ℤ), (0:ℤ), (255:ℤ))
        ['#', '0', '0', '0', '0', 'F', 'F'] ['b', 'l', 'u', 'e']).hex =
      some (ComputeResult.mk ((0:ℤ), (0:ℤ), (255:ℤ))
        ['#', '0', '0', '0', '0', 'F', 'F'] ['b', 'l', 'u', 'e']).rgb) := by
  have htr : transliterate_de ("b".toList) = "b".toList := by decide
  have hfreq : compute_rgb_freq ("b".toList) Denominator.VISIBLE = ((0, 0, 255), 1) := by
    have hl : letters_only ("b".toList) = ['b'] := by decide
    have hv : visible_len ("b".toList) = 1 := by decide
    have hr : List.countP (fun ch => ch = 'r' ∨ ch = 'R') ['b'] = 0 := by decide
    have hg : List.countP (fun ch => ch = 'g' ∨ ch = 'G') ['b'] = 0 := by decide
    have hbc : List.countP (fun ch => ch = 'b' ∨ ch = 'B') ['b'] = 1 := by decide
    have h0 : to_byte_0_1 (0:ℚ) = 0 := by norm_num [to_byte_0_1, py_round]
    have h255 : to_byte_0_1 (1:ℚ) = 255 := by norm_num [to_byte_0_1, py_round]
    rw [compute_rgb_freq]
    simp only [hl, hv, hr, hg, hbc]
    norm_num [h0, h255]
  have hfloor : apply_length_floor (0, 0, 255) 1 ({} : ComputeConfig) = (0, 0, 255) := by decide
  have hover : blend_override (0, 0, 255) ("b".toList) = (0, 0, 255) := by decide
  have hpunct : apply_punctuation (0, 0, 255) ("b".toList) ({} : ComputeConfig) = (0, 0, 255) :=
    apply_punctuation_id (by decide)
      (punctuation_multipliers_one (by decide) (by decide)) {}
  have hhex : rgb_to_hex 0 0 255 = ['#', '0', '0', '0', '0', 'F', 'F'] := by decide
  have hsvb : rgb_to_hsv 0 0 1 = (2/3, 1, 1) := by
    rw [rgb_to_hsv]
    norm_num [Int.fract]
  have hname : resolve_display_name ((0:ℤ), (0:ℤ), (255:ℤ)) = ['b', 'l', 'u', 'e'] := by
    rw [resolve_display_name, approx_color_name]
    norm_num [hsvb, hue_band_lookup, HUE_BANDS]
  have heval : compute_color ("b".toList) {} = some (ComputeResult.mk ((0:ℤ), (0:ℤ), (255:ℤ))
      ['#', '0', '0', '0', '0', 'F', 'F'] ['b', 'l', 'u', 'e']) := by
    rw [compute_color]
    simp only [htr, hfreq, hfloor, hover, hpunct, hhex, hname]
  exact ⟨heval, compute_color_hex_claim ("b".toList) {} _ heval⟩
